import Mathlib

/-!
# Verification of the Burpla vote-card core

A shallow embedding of the two core components of the Burpla repository:

* the **Response Normalizer** of `backend/agent_gadk/orchestrator.py`
  (`_looks_like_json`, `_strip_json_fences` and the retry loop at the end of
  `run_conversation`), and
* the **Vote Ledger** `ChatManager.record_vote` of `backend/db_services/chat.py`.

Both components manipulate JSON text through Python's `json` module (and, as a
fallback, `ast.literal_eval`).  Those library functions are modelled here by
executable Lean parsers and printers over an inductive `Json` type.  The model
is faithful on the fragment the repository exercises, with these documented
restrictions: JSON numbers are integers (a fractional part, an exponent,
`NaN` or `Infinity` makes the model parser fail where Python would produce a
float), a lone surrogate `\uXXXX` escape is rejected, and the
`ast.literal_eval` fallback covers strings, integers, `True`/`False`/`None`,
lists, tuples and string-keyed dicts (floats, sets, bytes, hex literals and
other Python forms are outside the model).  Strings are lists of Unicode
scalar values; `str.strip`/`lstrip` and `\s` are modelled over ASCII
whitespace.
-/

set_option maxRecDepth 40000

namespace Burpla

/-- Turn a Lean string literal into the character-list representation used
throughout the model. -/
def s2c (s : String) : List Char := s.data

/-- ASCII whitespace, the characters stripped by `str.strip` / matched by
regex `\s` in the fragment the source uses. -/
def isWs (c : Char) : Bool :=
  c = ' ' || c = '\t' || c = '\n' || c = '\r' || c = '\x0b' || c = '\x0c'

/-- `str.lstrip()`. -/
def lstrip (s : List Char) : List Char := s.dropWhile isWs

/-- `str.rstrip()`. -/
def rstrip (s : List Char) : List Char := (s.reverse.dropWhile isWs).reverse

/-- `str.strip()`. -/
def stripWs (s : List Char) : List Char := rstrip (lstrip s)

/-- ASCII lowercasing, modelling `str.lower()` on the characters that matter
for the fence-marker detection. -/
def lowerA (c : Char) : Char :=
  if 'A' ≤ c ∧ c ≤ 'Z' then Char.ofNat (c.toNat + 32) else c

/-- Does `t` start with the sequence `p`?  (`str.startswith`.) -/
def startsWithSeq : List Char → List Char → Bool
  | [], _ => true
  | _ :: _, [] => false
  | p :: ps, t :: ts => p = t && startsWithSeq ps ts

/-- Does `t` contain the sequence `p`?  (Python substring `in`.) -/
def containsSeq (p : List Char) : List Char → Bool
  | [] => List.isEmpty p
  | t :: ts => startsWithSeq p (t :: ts) || containsSeq p ts

/-- JSON values as the repository stores them.  Numbers are integers: the
vote cards only carry integer counts, and the model parsers fail on floats
(see the module docstring). -/
inductive Json : Type where
  | null : Json
  | bool : Bool → Json
  | int : Int → Json
  | str : List Char → Json
  | arr : List Json → Json
  | obj : List (List Char × Json) → Json

mutual

/-- Decidable equality for `Json` (written by hand: the deriving handler does
not support nested inductives). -/
def Json.decEq : (a b : Json) → Decidable (a = b)
  | .null, .null => isTrue rfl
  | .bool x, .bool y =>
    if h : x = y then isTrue (by rw [h]) else isFalse (by simp [h])
  | .int x, .int y =>
    if h : x = y then isTrue (by rw [h]) else isFalse (by simp [h])
  | .str x, .str y =>
    if h : x = y then isTrue (by rw [h]) else isFalse (by simp [h])
  | .arr xs, .arr ys =>
    match Json.decEqList xs ys with
    | isTrue h => isTrue (by rw [h])
    | isFalse h => isFalse (by simp [h])
  | .obj xs, .obj ys =>
    match Json.decEqKVs xs ys with
    | isTrue h => isTrue (by rw [h])
    | isFalse h => isFalse (by simp [h])
  | .null, .bool _ => isFalse (by intro h; cases h)
  | .null, .int _ => isFalse (by intro h; cases h)
  | .null, .str _ => isFalse (by intro h; cases h)
  | .null, .arr _ => isFalse (by intro h; cases h)
  | .null, .obj _ => isFalse (by intro h; cases h)
  | .bool _, .null => isFalse (by intro h; cases h)
  | .bool _, .int _ => isFalse (by intro h; cases h)
  | .bool _, .str _ => isFalse (by intro h; cases h)
  | .bool _, .arr _ => isFalse (by intro h; cases h)
  | .bool _, .obj _ => isFalse (by intro h; cases h)
  | .int _, .null => isFalse (by intro h; cases h)
  | .int _, .bool _ => isFalse (by intro h; cases h)
  | .int _, .str _ => isFalse (by intro h; cases h)
  | .int _, .arr _ => isFalse (by intro h; cases h)
  | .int _, .obj _ => isFalse (by intro h; cases h)
  | .str _, .null => isFalse (by intro h; cases h)
  | .str _, .bool _ => isFalse (by intro h; cases h)
  | .str _, .int _ => isFalse (by intro h; cases h)
  | .str _, .arr _ => isFalse (by intro h; cases h)
  | .str _, .obj _ => isFalse (by intro h; cases h)
  | .arr _, .null => isFalse (by intro h; cases h)
  | .arr _, .bool _ => isFalse (by intro h; cases h)
  | .arr _, .int _ => isFalse (by intro h; cases h)
  | .arr _, .str _ => isFalse (by intro h; cases h)
  | .arr _, .obj _ => isFalse (by intro h; cases h)
  | .obj _, .null => isFalse (by intro h; cases h)
  | .obj _, .bool _ => isFalse (by intro h; cases h)
  | .obj _, .int _ => isFalse (by intro h; cases h)
  | .obj _, .str _ => isFalse (by intro h; cases h)
  | .obj _, .arr _ => isFalse (by intro h; cases h)

/-- Decidable equality for lists of `Json`. -/
def Json.decEqList : (a b : List Json) → Decidable (a = b)
  | [], [] => isTrue rfl
  | [], _ :: _ => isFalse (by intro h; cases h)
  | _ :: _, [] => isFalse (by intro h; cases h)
  | x :: xs, y :: ys =>
    match Json.decEq x y, Json.decEqList xs ys with
    | isTrue h1, isTrue h2 => isTrue (by rw [h1, h2])
    | isFalse h1, _ => isFalse (by simp [h1])
    | _, isFalse h2 => isFalse (by simp [h2])

/-- Decidable equality for JSON object member lists. -/
def Json.decEqKVs : (a b : List (List Char × Json)) → Decidable (a = b)
  | [], [] => isTrue rfl
  | [], _ :: _ => isFalse (by intro h; cases h)
  | _ :: _, [] => isFalse (by intro h; cases h)
  | (k, v) :: xs, (k2, v2) :: ys =>
    if h0 : k = k2 then
      match Json.decEq v v2, Json.decEqKVs xs ys with
      | isTrue h1, isTrue h2 => isTrue (by rw [h0, h1, h2])
      | isFalse h1, _ => isFalse (by simp [h1])
      | _, isFalse h2 => isFalse (by simp [h2])
    else isFalse (by simp [h0])

end

instance : DecidableEq Json := Json.decEq

/-- First value stored under `key`, i.e. Python `d[key]` / `d.get(key)` on a
dict represented as an ordered association list. -/
def lookupKey : List (List Char × Json) → List Char → Option Json
  | [], _ => none
  | (k, v) :: rest, key => if k = key then some v else lookupKey rest key

/-- Python dict assignment `d[key] = v`: replaces the value in place when the
key exists (keeping its position), otherwise appends the pair at the end. -/
def objInsert : List (List Char × Json) → List Char → Json → List (List Char × Json)
  | [], key, v => [(key, v)]
  | (k, w) :: rest, key, v =>
    if k = key then (k, v) :: rest else (k, w) :: objInsert rest key v

/-- Decimal digit character. -/
def digitChar (n : Nat) : Char := Char.ofNat (48 + n)

/-- Decimal digits, fuelled so that the definition is structural and hence
computes by kernel reduction; `natDigits` supplies sufficient fuel. -/
def natDigitsF : Nat → Nat → List Char
  | 0, _ => []
  | fuel + 1, n =>
    if n < 10 then [digitChar n] else natDigitsF fuel (n / 10) ++ [digitChar (n % 10)]

/-- Decimal digits of a natural number, most significant first. -/
def natDigits (n : Nat) : List Char := natDigitsF (n + 1) n

/-- Lower-case hexadecimal digit character, as Python's `'%04x'` produces. -/
def hexChar (n : Nat) : Char :=
  if n < 10 then Char.ofNat (48 + n) else Char.ofNat (87 + n)

/-- Four lower-case hex digits of `n < 0x10000`. -/
def hex4 (n : Nat) : List Char :=
  [hexChar (n / 4096 % 16), hexChar (n / 256 % 16), hexChar (n / 16 % 16), hexChar (n % 16)]

/-- One character escaped exactly as Python `json.dumps` (with its default
`ensure_ascii=True`) escapes it: the two-character escapes for quote,
backslash and the common control characters, printable ASCII verbatim, and
`\uXXXX` (a surrogate pair above `0xFFFF`) for everything else. -/
def encodeChar (c : Char) : List Char :=
  if c = '\x22' then ['\\', '\x22']
  else if c = '\\' then ['\\', '\\']
  else if c = '\n' then ['\\', 'n']
  else if c = '\r' then ['\\', 'r']
  else if c = '\t' then ['\\', 't']
  else if c = '\x08' then ['\\', 'b']
  else if c = '\x0c' then ['\\', 'f']
  else if 0x20 ≤ c.toNat ∧ c.toNat < 0x7f then [c]
  else if c.toNat < 0x10000 then '\\' :: 'u' :: hex4 c.toNat
  else
    let m := c.toNat - 0x10000
    ('\\' :: 'u' :: hex4 (0xd800 + m / 1024)) ++ ('\\' :: 'u' :: hex4 (0xdc00 + m % 1024))

/-- Body of a serialized JSON string: every character escaped. -/
def escBody : List Char → List Char
  | [] => []
  | c :: t => encodeChar c ++ escBody t

/-- A serialized JSON string, quotes included. -/
def dumpStr (s : List Char) : List Char := '\x22' :: (escBody s ++ ['\x22'])

mutual
/-- `json.dumps` with Python's defaults: separators `", "` and `": "`,
`ensure_ascii=True`, insertion order preserved. -/
def json_dumps : Json → List Char
  | .null => s2c "null"
  | .bool true => s2c "true"
  | .bool false => s2c "false"
  | .int n => if n < 0 then '-' :: natDigits n.natAbs else natDigits n.natAbs
  | .str s => dumpStr s
  | .arr [] => ['[', ']']
  | .arr (x :: xs) => ('[' :: (json_dumps x ++ dumpsArrTail xs)) ++ [']']
  | .obj [] => ['\x7b', '\x7d']
  | .obj ((k, v) :: kvs) =>
    ('\x7b' :: (dumpStr k ++ ':' :: ' ' :: (json_dumps v ++ dumpsObjTail kvs))) ++ ['\x7d']

/-- Remaining array items, each preceded by `", "`. -/
def dumpsArrTail : List Json → List Char
  | [] => []
  | x :: xs => ',' :: ' ' :: (json_dumps x ++ dumpsArrTail xs)

/-- Remaining object members, each preceded by `", "`. -/
def dumpsObjTail : List (List Char × Json) → List Char
  | [] => []
  | (k, v) :: kvs => ',' :: ' ' :: (dumpStr k ++ ':' :: ' ' :: (json_dumps v ++ dumpsObjTail kvs))
end

/-- Numeric value of a hexadecimal digit (both cases), as `json.loads`
accepts in a `\uXXXX` escape. -/
def fromHexDigit (c : Char) : Option Nat :=
  if '0' ≤ c ∧ c ≤ '9' then some (c.toNat - 48)
  else if 'a' ≤ c ∧ c ≤ 'f' then some (c.toNat - 87)
  else if 'A' ≤ c ∧ c ≤ 'F' then some (c.toNat - 55)
  else none

/-- Value of four hexadecimal digits. -/
def fromHex4 (a b c d : Char) : Option Nat := do
  let x ← fromHexDigit a
  let y ← fromHexDigit b
  let z ← fromHexDigit c
  let w ← fromHexDigit d
  pure (4096 * x + 256 * y + 16 * z + w)

/-- Prepend a decoded character to the result of decoding the rest of a
string body. -/
def consStr (c : Char) (o : Option (List Char × List Char)) : Option (List Char × List Char) :=
  o.map (fun p => (c :: p.1, p.2))

/-- `c` maps simple JSON escapes (the character after a backslash) to the
character they denote. -/
def simpleEsc (c : Char) : Option Char :=
  if c = '\x22' then some '\x22'
  else if c = '\\' then some '\\'
  else if c = '/' then some '/'
  else if c = 'b' then some '\x08'
  else if c = 'f' then some '\x0c'
  else if c = 'n' then some '\n'
  else if c = 'r' then some '\r'
  else if c = 't' then some '\t'
  else none

/-- Decode the body of a JSON string (the part after the opening quote) as
Python's strict `json.loads` scanner does: literal characters up to the
closing quote (raw control characters are an error), the simple escapes, and
`\uXXXX` with surrogate pairs combined.  A lone surrogate escape, which
Python would keep as an unpaired surrogate, is rejected (model restriction:
Lean characters are Unicode scalar values).  Returns the decoded body and
the input remaining after the closing quote. -/
def decodeStrF : Nat → List Char → Option (List Char × List Char)
  | 0, _ => none
  | fuel + 1, s =>
    match s with
    | [] => none
    | c :: r =>
    if c = '\x22' then some ([], r)
    else if c = '\\' then
      match r with
      | [] => none
      | e :: r2 =>
        if e = 'u' then
          match r2 with
          | a :: b :: c2 :: d :: rest =>
            match fromHex4 a b c2 d with
            | none => none
            | some n =>
              if n < 0xd800 ∨ 0xe000 ≤ n then consStr (Char.ofNat n) (decodeStrF fuel rest)
              else if n < 0xdc00 then
                match rest with
                | x1 :: x2 :: e2 :: f :: g :: h2 :: rest2 =>
                  if x1 = '\\' ∧ x2 = 'u' then
                    match fromHex4 e2 f g h2 with
                    | none => none
                    | some m =>
                      if 0xdc00 ≤ m ∧ m < 0xe000 then
                        consStr (Char.ofNat (0x10000 + (n - 0xd800) * 1024 + (m - 0xdc00)))
                          (decodeStrF fuel rest2)
                      else none
                  else none
                | _ => none
              else none
          | _ => none
        else
          match simpleEsc e with
          | some ch => consStr ch (decodeStrF fuel r2)
          | none => none
    else if c.toNat < 0x20 then none
    else consStr c (decodeStrF fuel r)

/-- Decode the body of a JSON string; the fuel `length + 1` cannot run out,
since every decoded character consumes at least one input character. -/
def decodeStr (s : List Char) : Option (List Char × List Char) :=
  decodeStrF (s.length + 1) s

/-- Is `c` an ASCII decimal digit? -/
def isDigitA (c : Char) : Bool := '0' ≤ c && c ≤ '9'

/-- Longest digit run at the front of the input, and the rest. -/
def takeDigits : List Char → List Char × List Char
  | [] => ([], [])
  | c :: r =>
    if isDigitA c then
      let p := takeDigits r
      (c :: p.1, p.2)
    else ([], c :: r)

/-- Numeric value of a digit run. -/
def digitsVal (ds : List Char) : Nat :=
  ds.foldl (fun acc c => 10 * acc + (c.toNat - 48)) 0

/-- Parse a JSON number at the head of the input.  The model covers the
integer fragment: an optional minus sign and a decimal run with no leading
zeros.  A fractional part or an exponent — which Python would read as a
float — and the `NaN`/`Infinity` extensions make the model parser fail
(documented restriction). -/
def parseNumAt (s : List Char) : Option (Json × List Char) :=
  let p : Bool × List Char := match s with
    | [] => (false, [])
    | c :: r => if c = '-' then (true, r) else (false, c :: r)
  let q := takeDigits p.2
  if q.1 = [] then none
  else if q.1.length > 1 ∧ q.1.head? = some '0' then none
  else
    let n : Int := Int.ofNat (digitsVal q.1)
    let v : Json := .int (if p.1 then -n else n)
    match q.2 with
    | c :: _ => if c = '.' ∨ c = 'e' ∨ c = 'E' then none else some (v, q.2)
    | [] => some (v, [])

/-- Rebuild a parsed member list the way Python's dict construction does:
members are inserted in order, a repeated key overwriting the value at the
first occurrence's position. -/
def dedupKVs (kvs : List (List Char × Json)) : List (List Char × Json) :=
  kvs.foldl (fun acc kv => objInsert acc kv.1 kv.2) []

mutual

/-- Parse one JSON value (leading whitespace skipped), returning the value
and the remaining input.  `fuel` bounds the recursion depth; `json_loads`
supplies enough fuel that it never runs out on an input the model accepts. -/
def parseValue : Nat → List Char → Option (Json × List Char)
  | 0, _ => none
  | fuel + 1, s =>
    match lstrip s with
    | [] => none
    | c :: r =>
      if c = '\x7b' then
        match lstrip r with
        | [] => none
        | c2 :: r2 =>
          if c2 = '\x7d' then some (.obj [], r2)
          else (parseMembers fuel (c2 :: r2)).map (fun p => (Json.obj (dedupKVs p.1), p.2))
      else if c = '[' then
        match lstrip r with
        | [] => none
        | c2 :: r2 =>
          if c2 = ']' then some (.arr [], r2)
          else (parseElems fuel (c2 :: r2)).map (fun p => (Json.arr p.1, p.2))
      else if c = '\x22' then
        (decodeStr r).map (fun p => (Json.str p.1, p.2))
      else if c = 't' then
        match r with
        | c1 :: c2 :: c3 :: r2 =>
          if c1 = 'r' ∧ c2 = 'u' ∧ c3 = 'e' then some (.bool true, r2) else none
        | _ => none
      else if c = 'f' then
        match r with
        | c1 :: c2 :: c3 :: c4 :: r2 =>
          if c1 = 'a' ∧ c2 = 'l' ∧ c3 = 's' ∧ c4 = 'e' then some (.bool false, r2) else none
        | _ => none
      else if c = 'n' then
        match r with
        | c1 :: c2 :: c3 :: r2 =>
          if c1 = 'u' ∧ c2 = 'l' ∧ c3 = 'l' then some (.null, r2) else none
        | _ => none
      else parseNumAt (c :: r)

/-- Parse the elements of a non-empty JSON array, starting at the first
element, up to and including the closing bracket. -/
def parseElems : Nat → List Char → Option (List Json × List Char)
  | 0, _ => none
  | fuel + 1, s =>
    match parseValue fuel s with
    | none => none
    | some (v, r) =>
      match lstrip r with
      | [] => none
      | c :: r2 =>
        if c = ',' then (parseElems fuel r2).map (fun p => (v :: p.1, p.2))
        else if c = ']' then some ([v], r2)
        else none

/-- Parse the members of a non-empty JSON object, starting at the first key,
up to and including the closing brace. -/
def parseMembers : Nat → List Char → Option (List (List Char × Json) × List Char)
  | 0, _ => none
  | fuel + 1, s =>
    match lstrip s with
    | [] => none
    | c0 :: r =>
      if c0 = '\x22' then
        match decodeStr r with
        | none => none
        | some (k, r2) =>
          match lstrip r2 with
          | [] => none
          | c1 :: r3 =>
            if c1 = ':' then
              match parseValue fuel r3 with
              | none => none
              | some (v, r4) =>
                match lstrip r4 with
                | [] => none
                | c2 :: r5 =>
                  if c2 = ',' then (parseMembers fuel r5).map (fun p => ((k, v) :: p.1, p.2))
                  else if c2 = '\x7d' then some ([(k, v)], r5)
                  else none
            else none
      else none

end

/-- `json.loads`: a single JSON value, with whitespace allowed around it and
nothing else after it.  The fuel bound `2 * length + 2` exceeds the number of
recursive parser calls any input can trigger, so it never cuts a parse
short. -/
def json_loads (s : List Char) : Option Json :=
  match parseValue (2 * s.length + 2) s with
  | some (v, rest) => if lstrip rest = [] then some v else none
  | none => none

/-- Simple Python string escapes (the character after a backslash) in the
fragment the fallback parser models. -/
def pyEscChar (c : Char) : Option Char :=
  if c = '\\' then some '\\'
  else if c = '\x27' then some '\x27'
  else if c = '\x22' then some '\x22'
  else if c = 'n' then some '\n'
  else if c = 't' then some '\t'
  else if c = 'r' then some '\r'
  else if c = 'b' then some '\x08'
  else if c = 'f' then some '\x0c'
  else if c = 'v' then some '\x0b'
  else none

/-- Body of a Python string literal quoted by `q`: literal characters (the
other quote included, raw newlines excluded), the simple escapes, `\xHH` and
non-surrogate `\uXXXX`.  Octal escapes, `\N`, `\U`, line continuations and
triple quotes are outside the model. -/
def pyStrBody (q : Char) : List Char → Option (List Char × List Char)
  | [] => none
  | c :: r =>
    if c = q then some ([], r)
    else if c = '\\' then
      match r with
      | 'x' :: a :: b :: rest =>
        match fromHexDigit a, fromHexDigit b with
        | some x, some y => consStr (Char.ofNat (16 * x + y)) (pyStrBody q rest)
        | _, _ => none
      | 'u' :: a :: b :: c2 :: d :: rest =>
        match fromHex4 a b c2 d with
        | none => none
        | some n =>
          if n < 0xd800 ∨ 0xe000 ≤ n then consStr (Char.ofNat n) (pyStrBody q rest)
          else none
      | e :: r2 =>
        match pyEscChar e with
        | some ch => consStr ch (pyStrBody q r2)
        | none => none
      | [] => none
    else if c = '\n' ∨ c = '\r' then none
    else consStr c (pyStrBody q r)

/-- Parse a Python integer literal at the head of the input: an optional
sign (whitespace after it allowed, as the unary operators permit), a decimal
run with no leading zeros, not followed by a character that would make it a
float, complex, underscored or non-decimal literal (those are outside the
model, which fails where Python would produce a non-integer). -/
def pyNumAt (s : List Char) : Option (Json × List Char) :=
  let p := match s with
    | '-' :: r => (some true, lstrip r)
    | '+' :: r => (some false, lstrip r)
    | _ => (none, s)
  let q := takeDigits p.2
  if q.1 = [] then none
  else if q.1.length > 1 ∧ q.1.head? = some '0' then none
  else
    let n : Int := Int.ofNat (digitsVal q.1)
    let v : Json := .int (if p.1 = some true then -n else n)
    match q.2 with
    | c :: _ =>
      if c = '.' ∨ c = '_' ∨ c.isAlpha then none else some (v, q.2)
    | [] => some (v, [])

mutual

/-- Parse one Python literal (a subset of what `ast.literal_eval` accepts:
strings, integers, `True`/`False`/`None`, lists, tuples and string-keyed
dicts; tuples become JSON arrays, exactly as `json.dumps` later serialises
a tuple).  Floats, sets, bytes, non-string dict keys and other Python forms
make the model parser fail. -/
def pyValue : Nat → List Char → Option (Json × List Char)
  | 0, _ => none
  | fuel + 1, s =>
    match lstrip s with
    | [] => none
    | c :: r =>
      if c = '[' then
        match lstrip r with
        | ']' :: r2 => some (.arr [], r2)
        | r2 => (pyElems fuel ']' r2).map (fun p => (Json.arr p.1, p.2))
      else if c = '(' then
        match lstrip r with
        | ')' :: r2 => some (.arr [], r2)
        | r2 =>
          match pyValue fuel r2 with
          | none => none
          | some (v, r3) =>
            match lstrip r3 with
            | ')' :: r4 => some (v, r4)
            | ',' :: r4 =>
              match lstrip r4 with
              | ')' :: r5 => some (.arr [v], r5)
              | r5 => (pyElems fuel ')' r5).map (fun p => (Json.arr (v :: p.1), p.2))
            | _ => none
      else if c = '\x7b' then
        match lstrip r with
        | '\x7d' :: r2 => some (.obj [], r2)
        | r2 => (pyMembers fuel r2).map (fun p => (Json.obj (dedupKVs p.1), p.2))
      else if c = '\x27' ∨ c = '\x22' then
        (pyStrBody c r).map (fun p => (Json.str p.1, p.2))
      else if c = 'T' then
        match r with
        | 'r' :: 'u' :: 'e' :: r2 => some (.bool true, r2)
        | _ => none
      else if c = 'F' then
        match r with
        | 'a' :: 'l' :: 's' :: 'e' :: r2 => some (.bool false, r2)
        | _ => none
      else if c = 'N' then
        match r with
        | 'o' :: 'n' :: 'e' :: r2 => some (.null, r2)
        | _ => none
      else pyNumAt (c :: r)

/-- Elements of a Python list or tuple display up to the closing character,
a trailing comma allowed. -/
def pyElems : Nat → Char → List Char → Option (List Json × List Char)
  | 0, _, _ => none
  | fuel + 1, close, s =>
    match pyValue fuel s with
    | none => none
    | some (v, r) =>
      match lstrip r with
      | ',' :: r2 =>
        match lstrip r2 with
        | c :: r3 =>
          if c = close then some ([v], r3)
          else (pyElems fuel close (c :: r3)).map (fun p => (v :: p.1, p.2))
        | [] => none
      | c :: r2 => if c = close then some ([v], r2) else none
      | [] => none

/-- Members of a non-empty Python dict display, a trailing comma allowed;
keys must be string literals (a non-string key, or a set display, is outside
the model). -/
def pyMembers : Nat → List Char → Option (List (List Char × Json) × List Char)
  | 0, _ => none
  | fuel + 1, s =>
    match pyValue fuel s with
    | some (.str k, r) =>
      match lstrip r with
      | ':' :: r2 =>
        match pyValue fuel r2 with
        | none => none
        | some (v, r3) =>
          match lstrip r3 with
          | ',' :: r4 =>
            match lstrip r4 with
            | '\x7d' :: r5 => some ([(k, v)], r5)
            | r5 => (pyMembers fuel r5).map (fun p => ((k, v) :: p.1, p.2))
          | '\x7d' :: r4 => some ([(k, v)], r4)
          | _ => none
      | _ => none
    | _ => none

end

/-- `ast.literal_eval`, restricted as documented at `pyValue`. -/
def ast_literal_eval (s : List Char) : Option Json :=
  match pyValue (2 * s.length + 2) s with
  | some (v, rest) => if lstrip rest = [] then some v else none
  | none => none

/-! ## The Response Normalizer (backend/agent_gadk/orchestrator.py) -/

/-- `_looks_like_json` (orchestrator.py lines 158-162): lowercase the
left-stripped text and test whether it contains a JSON-tagged fence marker
anywhere, or starts with a brace or a bracket. -/
def looks_like_json (text : List Char) : Bool :=
  let t := (lstrip text).map lowerA
  containsSeq (s2c "\x60\x60\x60json") t || startsWithSeq (s2c "\x7b") t ||
    startsWithSeq (s2c "[") t

/-- Does `t` end with the sequence `p`? -/
def endsWithSeq (p t : List Char) : Bool := startsWithSeq p.reverse t.reverse

/-- `_strip_json_fences` (orchestrator.py lines 164-166):
`re.sub` of `^\s*BT BT BT json\s*|\s*BT BT BT\s*$` (`BT` a backtick) with the
empty string on `text.strip()`, case-insensitively.  Without MULTILINE the
first alternative can match only at the start, where its leading `\s*` is
empty after the strip, so it removes a case-insensitive fence-with-tag
prefix and the whitespace run after it; the second removes the leftmost
end-anchored run whitespace-fence-whitespace. -/
def strip_json_fences (text : List Char) : List Char :=
  let t := stripWs text
  let t1 :=
    if startsWithSeq (s2c "\x60\x60\x60json") (t.map lowerA) then (t.drop 7).dropWhile isWs
    else t
  let t2 := rstrip t1
  if endsWithSeq (s2c "\x60\x60\x60") t2 then rstrip (t2.take (t2.length - 3)) else t1

/-- Outcome of one `run_conversation` normalisation: the returned text (or
the exception a failing `regenerate` propagates), together with how many
parse attempts were made and how many times the agent was re-invoked. -/
instance {ε α : Type} [DecidableEq ε] [DecidableEq α] : DecidableEq (Except ε α) := fun a b =>
  match a, b with
  | .ok x, .ok y => if h : x = y then isTrue (by rw [h]) else isFalse (by simp [h])
  | .error x, .error y => if h : x = y then isTrue (by rw [h]) else isFalse (by simp [h])
  | .ok _, .error _ => isFalse (by intro h; cases h)
  | .error _, .ok _ => isFalse (by intro h; cases h)

structure NormOut where
  result : Except (List Char) (List Char)
  parseAttempts : Nat
  regenCalls : Nat
deriving DecidableEq

/-- `data["message_id"] = f"msm_{uuid.uuid4()}"`, applied only to mappings
(orchestrator.py lines 221-222); `mid` stands for the generated UUID text. -/
def injectMessageId (mid : List Char) : Json → Json
  | .obj kvs => .obj (objInsert kvs (s2c "message_id") (.str (s2c "msm_" ++ mid)))
  | v => v

/-- The retry loop of `run_conversation` (orchestrator.py lines 212-237).
`remaining` counts the attempts left out of `max_retries = 3`; on a parse
failure with attempts remaining, `regen` (modelling the re-run of
`call_agent_async`, indexed by how many re-runs happened before) produces
the next raw candidate or raises. -/
def normLoop (mid : List Char) (regen : Nat → Except (List Char) (List Char)) :
    Nat → Nat → Nat → List Char → NormOut
  | 0, attempts, regens, _ =>
    ⟨.ok (s2c "Failed to generate valid response. Please try again"), attempts, regens⟩
  | remaining + 1, attempts, regens, lastRaw =>
    match json_loads (strip_json_fences lastRaw) with
    | some data => ⟨.ok (json_dumps (injectMessageId mid data)), attempts + 1, regens⟩
    | none =>
      if remaining = 0 then ⟨.ok lastRaw, attempts + 1, regens⟩
      else
        match regen regens with
        | .error e => ⟨.error e, attempts + 1, regens + 1⟩
        | .ok nxt => normLoop mid regen remaining (attempts + 1) (regens + 1) nxt

/-- The JSON-normalisation tail of `run_conversation` (orchestrator.py
lines 208-237): a response that does not look like JSON is returned
unchanged with no retries; otherwise up to three parse attempts are made. -/
def normalize_response (mid : List Char) (regen : Nat → Except (List Char) (List Char))
    (response : List Char) : NormOut :=
  if looks_like_json response then normLoop mid regen 3 0 0 response
  else ⟨.ok response, 0, 0⟩

/-! ## The Vote Ledger (backend/db_services/chat.py, ChatManager.record_vote) -/

/-- The exceptions `record_vote` can raise, by the Python exception each
raising site produces.  The first three are `ValueError`s raised explicitly
(message row not found; content unparsable by both parsers; parsed content
not a dict); the last three are the implicit exceptions of the option loops
(`option["restaurant_id"]` on a dict lacking the key; iterating, indexing
or arithmetic on a wrongly-typed value; `.remove`/`.append` on a value that
is not a list). -/
inductive VErr : Type where
  | notFound : VErr
  | malformedContent : VErr
  | notAMapping : VErr
  | keyError : VErr
  | typeError : VErr
  | attributeError : VErr
deriving DecidableEq, Repr

/-- A row of the `chat_sessions` table. -/
structure ChatRow where
  session_id : List Char
  user_id : List Char
  message_id : List Char
  content : List Char
  timestamp : List Char
deriving DecidableEq, Repr

/-- The `SELECT content ... WHERE session_id = ? AND message_id = ?` with
`fetchone()`: content of the first matching row. -/
def findContent (store : List ChatRow) (sid mid : List Char) : Option (List Char) :=
  (store.find? (fun r => decide (r.session_id = sid ∧ r.message_id = mid))).map
    (fun r => r.content)

/-- The `UPDATE chat_sessions SET content = ?, timestamp = ? WHERE
session_id = ? AND message_id = ?`: every matching row is rewritten. -/
def updateRows (store : List ChatRow) (sid mid newContent now : List Char) : List ChatRow :=
  store.map (fun r =>
    if r.session_id = sid ∧ r.message_id = mid then
      { r with content := newContent, timestamp := now }
    else r)

/-- Content deserialisation in `record_vote` (chat.py lines 296-317):
`json.loads`, falling back to `ast.literal_eval`, a `ValueError` if both
fail. -/
def parseContent (content : List Char) : Except VErr Json :=
  match json_loads content with
  | some v => .ok v
  | none =>
    match ast_literal_eval content with
    | some v => .ok v
    | none => .error .malformedContent

def voteOptionsK : List Char := s2c "vote_options"
def voteListK : List Char := s2c "vote_user_id_list"
def voteNumK : List Char := s2c "number_of_vote"
def ridK : List Char := s2c "restaurant_id"
def rNameK : List Char := s2c "restaurant_name"

/-- `d[k]` on an option dict: `KeyError` when the key is absent. -/
def getKey (o : List (List Char × Json)) (k : List Char) : Except VErr Json :=
  match lookupKey o k with
  | some v => .ok v
  | none => .error .keyError

/-- Python `int(x)`-compatible view of a JSON value for the vote-count
arithmetic: integers are themselves and booleans are 0/1 (a Python `bool`
is an `int`); anything else makes `x - 1` / `x + 1` a `TypeError`. -/
def asNum : Json → Except VErr Int
  | .int n => .ok n
  | .bool b => .ok (if b then 1 else 0)
  | _ => .error .typeError

/-- Python `user_id in option["vote_user_id_list"]` on whatever value that
key holds: list membership, substring test on a string, key membership on a
dict, `TypeError` otherwise. -/
def pyContains (v : Json) (u : List Char) : Except VErr Bool :=
  match v with
  | .arr xs => .ok (decide (Json.str u ∈ xs))
  | .str s => .ok (containsSeq u s)
  | .obj kvs => .ok (kvs.any (fun kv => decide (kv.1 = u)))
  | _ => .error .typeError

/-- Remove the first occurrence of `u` from a list. -/
def eraseFirst (u : Json) : List Json → List Json
  | [] => []
  | x :: xs => if x = u then xs else x :: eraseFirst u xs

/-- `option["vote_user_id_list"].remove(user_id)`: removes the first
occurrence from a list, an `AttributeError` on any other value. -/
def listRemove (v : Json) (u : List Char) : Except VErr Json :=
  match v with
  | .arr xs => .ok (.arr (eraseFirst (.str u) xs))
  | _ => .error .attributeError

/-- `option["vote_user_id_list"].append(user_id)`. -/
def listAppend (v : Json) (u : List Char) : Except VErr Json :=
  match v with
  | .arr xs => .ok (.arr (xs ++ [.str u]))
  | _ => .error .attributeError

/-- The first loop over `vote_options` (chat.py lines 326-331): default a
missing `vote_user_id_list` to `[]` and a missing `number_of_vote` to `0`.
A non-dict option raises a `TypeError` (for a string or dict option Python
raises it at the `option["vote_user_id_list"] = []` item assignment, for
other types already at the membership test). -/
def initOption : Json → Except VErr Json
  | .obj o =>
    let o1 := if (lookupKey o voteListK).isSome then o else objInsert o voteListK (.arr [])
    let o2 :=
      if (lookupKey o1 voteNumK).isSome then o1 else objInsert o1 voteNumK (.int 0)
    .ok (.obj o2)
  | _ => .error .typeError

/-- The second loop (chat.py lines 335-341), run only for an up-vote: an
option other than the target whose list contains the user loses that vote
(`remove`, then `number_of_vote = max(0, number_of_vote - 1)`), setting the
`updated` flag. -/
def phase2 (uid tid : List Char) : Json → Except VErr (Json × Bool)
  | .obj o => do
    let rid ← getKey o ridK
    if rid = .str tid then .ok (.obj o, false)
    else do
      let lv ← getKey o voteListK
      let isM ← pyContains lv uid
      if isM then do
        let lv' ← listRemove lv uid
        let nv ← getKey o voteNumK
        let n ← asNum nv
        .ok (.obj (objInsert (objInsert o voteListK lv') voteNumK (.int (max 0 (n - 1)))), true)
      else .ok (.obj o, false)
  | _ => .error .typeError

/-- The third loop (chat.py lines 344-356): on the target option (every
option whose `restaurant_id` equals the requested id), record the
restaurant name, then apply the up-vote (append and increment when the user
is not in the list) or the down-vote (remove and floored decrement when the
user is in the list), reporting whether anything changed. -/
def phase3 (uid tid : List Char) (up : Bool) : Json → Except VErr (Json × Bool × Option Json)
  | .obj o => do
    let rid ← getKey o ridK
    if rid = .str tid then
      let name := (lookupKey o rNameK).getD (.str (s2c "this restaurant"))
      if up then do
        let lv ← getKey o voteListK
        let isM ← pyContains lv uid
        if isM then .ok (.obj o, false, some name)
        else do
          let lv' ← listAppend lv uid
          let nv ← getKey o voteNumK
          let n ← asNum nv
          .ok (.obj (objInsert (objInsert o voteListK lv') voteNumK (.int (n + 1))),
            true, some name)
      else do
        let lv ← getKey o voteListK
        let isM ← pyContains lv uid
        if isM then do
          let lv' ← listRemove lv uid
          let nv ← getKey o voteNumK
          let n ← asNum nv
          .ok (.obj (objInsert (objInsert o voteListK lv') voteNumK (.int (max 0 (n - 1)))),
            true, some name)
        else .ok (.obj o, false, some name)
    else .ok (.obj o, false, none)
  | _ => .error .typeError

/-- Run an option transformation over every option, stopping at the first
exception, as a Python `for` loop does. -/
def mapME (f : α → Except VErr β) : List α → Except VErr (List β)
  | [] => .ok []
  | x :: xs => do
    let y ← f x
    let ys ← mapME f xs
    .ok (y :: ys)

/-- `restaurant_name` is overwritten on every matching option, so the last
match wins. -/
def lastSome : List (Option Json) → Option Json :=
  List.foldl (fun acc x => if x.isSome then x else acc) none

/-- The in-memory mutation of the parsed vote card (chat.py lines 323-356):
the three option loops over `vote_card.get("vote_options", [])`.  Returns
the mutated card members, the `updated` flag and `restaurant_name`.  When
`vote_options` is absent, or present but empty-iterable (an empty string or
dict iterates zero options), the loops run over nothing; a present
non-iterable value, or a string or dict option record, raises `TypeError`
as the Python loops would. -/
def applyVote (card : List (List Char × Json)) (uid tid : List Char) (up : Bool) :
    Except VErr (List (List Char × Json) × Bool × Option Json) :=
  match lookupKey card voteOptionsK with
  | some (.arr xs) => do
    let xs1 ← mapME initOption xs
    let p2 ←
      if up then mapME (phase2 uid tid) xs1
      else .ok (xs1.map (fun o => (o, false)))
    let p3 ← mapME (phase3 uid tid up) (p2.map (fun q => q.1))
    let updated := (p2.map (fun q => q.2)).any id || (p3.map (fun q => q.2.1)).any id
    let name := lastSome (p3.map (fun q => q.2.2))
    .ok (objInsert card voteOptionsK (.arr (p3.map (fun q => q.1))), updated, name)
  | none => .ok (card, false, none)
  | some (.str []) => .ok (card, false, none)
  | some (.obj []) => .ok (card, false, none)
  | some _ => .error .typeError

/-- `ChatManager.record_vote` (chat.py lines 247-370) over a store of chat
rows; `now` stands for `datetime.now().isoformat()`.  Returns the store
after the call together with the result: the exception raised, or the value
returned (`restaurant_name` when a change was written, `None` otherwise).
The single `UPDATE` runs only when a mutation was applied. -/
def record_vote (store : List ChatRow) (now : List Char) (sid uid mid tid : List Char)
    (up : Bool) : List ChatRow × Except VErr (Option Json) :=
  match findContent store sid mid with
  | none => (store, .error .notFound)
  | some content =>
    match parseContent content with
    | .error e => (store, .error e)
    | .ok (.obj kvs) =>
      match applyVote kvs uid tid up with
      | .error e => (store, .error e)
      | .ok (kvs', updated, name) =>
        if updated then
          (updateRows store sid mid (json_dumps (.obj kvs')) now, .ok name)
        else (store, .ok none)
    | .ok _ => (store, .error .notAMapping)

/-- Is a JSON value an object (a Python mapping)? -/
def Json.isObj : Json → Bool
  | .obj _ => true
  | _ => false

mutual

/-- Size of a JSON value, counting one for every value node.  It bounds the
recursion depth the parser needs to read the value back, so it calibrates
the parser's fuel. -/
def sizeJ : Json → Nat
  | .null => 1
  | .bool _ => 1
  | .int _ => 1
  | .str _ => 1
  | .arr xs => 1 + sizeJList xs
  | .obj kvs => 1 + sizeJKVs kvs

/-- Combined size of array elements. -/
def sizeJList : List Json → Nat
  | [] => 0
  | x :: xs => sizeJ x + 1 + sizeJList xs

/-- Combined size of object member values. -/
def sizeJKVs : List (List Char × Json) → Nat
  | [] => 0
  | kv :: kvs => sizeJ kv.2 + 1 + sizeJKVs kvs

end

/-- Well-formed JSON values: every object, at any depth, has pairwise
distinct keys.  Every value the parser produces is of this form (Python dict
construction collapses duplicates), and on this form serialization is
injective and parsing is its left inverse. -/
inductive JsonWF : Json → Prop where
  | null : JsonWF .null
  | bool (b : Bool) : JsonWF (.bool b)
  | int (n : Int) : JsonWF (.int n)
  | str (s : List Char) : JsonWF (.str s)
  | arr (xs : List Json) : (∀ x ∈ xs, JsonWF x) → JsonWF (.arr xs)
  | obj (kvs : List (List Char × Json)) : (∀ kv ∈ kvs, JsonWF kv.2) →
      (kvs.map Prod.fst).Nodup → JsonWF (.obj kvs)

/-- Does the input continue with a token that legitimately ends a serialized
value in context — a separator, a closing bracket, or the end of the
input? -/
def stopper : List Char → Bool
  | [] => true
  | c :: _ => c = ',' || c = ']' || c = '\x7d'

/-! ## Auxiliary definitions for the claim statements and witnesses -/

/-- Number of occurrences of a value in a list of JSON values. -/
def countJ (u : Json) (l : List Json) : Nat := l.countP (fun x => decide (x = u))

/-- The classification condition exactly as claim C4 words it: after
trimming leading whitespace, the text starts with a JSON-tagged code fence
(detected case-insensitively), or starts with a brace, or starts with a
bracket.  Written from the claim's words, to be compared with the code's
`_looks_like_json`. -/
def claimStartsStructured (text : List Char) : Bool :=
  let t := (lstrip text).map lowerA
  startsWithSeq (s2c "\x60\x60\x60json") t || startsWithSeq (s2c "\x7b") t ||
    startsWithSeq (s2c "[") t

/-- The classification of the amended claim, following the code: the
JSON-tagged fence marker may appear anywhere in the lowercased left-trimmed
text, not only at its start. -/
def specStructured (text : List Char) : Bool :=
  let t := (lstrip text).map lowerA
  containsSeq (s2c "\x60\x60\x60json") t || startsWithSeq (s2c "\x7b") t ||
    startsWithSeq (s2c "[") t

/-- Count consistency of one option, as claim C2's precondition words it:
both vote fields present, the list a JSON array, and `number_of_vote` equal
(under Python's arithmetic view of ints and bools) to the list's length. -/
def OptionCountOk (o : Json) : Prop :=
  ∃ os l nv, o = Json.obj os ∧ lookupKey os voteListK = some (.arr l) ∧
    lookupKey os voteNumK = some nv ∧ asNum nv = .ok (Int.ofNat l.length)

/-- The vote list of an option (empty for anything not of the well-formed
shape; the well-formedness hypotheses pin the real shape). -/
def optList (o : Json) : List Json :=
  match o with
  | .obj os =>
    match lookupKey os voteListK with
    | some (.arr l) => l
    | _ => []
  | _ => []

/-- The restaurant id field of an option. -/
def optRid (o : Json) : Option Json :=
  match o with
  | .obj os => lookupKey os ridK
  | _ => none

/-- Occurrences of user `u` (counting multiplicity) across all options'
vote lists. -/
def occTotal (opts : List Json) (u : List Char) : Nat :=
  (opts.map (fun o => countJ (.str u) (optList o))).sum

/-- Number of options whose vote list contains user `u`. -/
def optsContaining (opts : List Json) (u : List Char) : Nat :=
  opts.countP (fun o => decide (Json.str u ∈ optList o))

/-- Option shape for the voting claims: an object carrying a string
`restaurant_id` and an array `vote_user_id_list`, as the spec's data model
prescribes. -/
def OptionVoteOk (o : Json) : Prop :=
  ∃ os r l, o = Json.obj os ∧ lookupKey os ridK = some (.str r) ∧
    lookupKey os voteListK = some (.arr l)

/-- Count effect of the up-vote pipeline (init, removal loop, target loop)
on one option. -/
def UpEffect (uid tid : List Char) (o o3 : Json) : Prop :=
  optRid o3 = optRid o ∧
  (∀ x : Json, x ≠ .str uid → countJ x (optList o3) = countJ x (optList o)) ∧
  (optRid o ≠ some (.str tid) →
    countJ (.str uid) (optList o) ≤ 1 → countJ (.str uid) (optList o3) = 0) ∧
  (optRid o = some (.str tid) →
    Json.str uid ∈ optList o3 ∧
    countJ (.str uid) (optList o3) = max (countJ (.str uid) (optList o)) 1)

/-- Count effect of the down-vote pipeline on one option. -/
def DownEffect (uid : List Char) (o o3 : Json) : Prop :=
  optRid o3 = optRid o ∧
  (∀ x : Json, countJ x (optList o3) ≤ countJ x (optList o)) ∧
  (∀ x : Json, x ≠ .str uid → countJ x (optList o3) = countJ x (optList o))

/-- A two-option card (empty vote lists) for the C1 witness. -/
def c1opts : List Json :=
  [.obj [(ridK, .str (s2c "A")), (voteListK, .arr [])],
   .obj [(ridK, .str (s2c "B")), (voteListK, .arr [])]]

def c1kvs : List (List Char × Json) := [(voteOptionsK, .arr c1opts)]

/-- The card after up-voting option B as user u. -/
def c1kvs' : List (List Char × Json) :=
  [(voteOptionsK, .arr [
    .obj [(ridK, .str (s2c "A")), (voteListK, .arr []), (voteNumK, .int 0)],
    .obj [(ridK, .str (s2c "B")), (voteListK, .arr [.str (s2c "u")]), (voteNumK, .int 1)]])]

/-- Card used by the C2 witness: user u's vote sits on option A. -/
def c2kvs : List (List Char × Json) :=
  [(voteOptionsK, .arr [
    .obj [(ridK, .str (s2c "A")), (voteListK, .arr [.str (s2c "u")]), (voteNumK, .int 1)],
    .obj [(ridK, .str (s2c "B")), (voteListK, .arr []), (voteNumK, .int 0)]])]

/-- The C2 witness card after u up-votes B: the vote moved from A to B. -/
def c2kvs' : List (List Char × Json) :=
  [(voteOptionsK, .arr [
    .obj [(ridK, .str (s2c "A")), (voteListK, .arr []), (voteNumK, .int 0)],
    .obj [(ridK, .str (s2c "B")), (voteListK, .arr [.str (s2c "u")]), (voteNumK, .int 1)]])]

/-- Option shape with a usable vote count, needed where the removal loop
may actually fire. -/
def OptionFullOk (o : Json) : Prop :=
  ∃ os r l nv n, o = Json.obj os ∧ lookupKey os ridK = some (.str r) ∧
    lookupKey os voteListK = some (.arr l) ∧ lookupKey os voteNumK = some nv ∧
    asNum nv = .ok n

/-- Content of the card used by the C8 witness. -/
def c8content : List Char :=
  s2c "\x7b\"vote_options\": [\x7b\"restaurant_id\": \"A\", \"vote_user_id_list\": [\"u\"], \"number_of_vote\": 1\x7d, \x7b\"restaurant_id\": \"B\", \"vote_user_id_list\": [], \"number_of_vote\": 0\x7d]\x7d"

def c8row : ChatRow := ⟨s2c "s1", s2c "bot", s2c "m1", c8content, s2c "t0"⟩

def c8opts : List Json :=
  [.obj [(ridK, .str (s2c "A")), (voteListK, .arr [.str (s2c "u")]), (voteNumK, .int 1)],
   .obj [(ridK, .str (s2c "B")), (voteListK, .arr []), (voteNumK, .int 0)]]

def c8kvs : List (List Char × Json) := [(voteOptionsK, .arr c8opts)]

/-- Content of the card refuting C8 as stated: u's vote sits on both A and
B (one vote per list, so the claim's own precondition is met for the
up-vote of A, whose list already contains u). -/
def c8cexContent : List Char :=
  s2c "\x7b\"vote_options\": [\x7b\"restaurant_id\": \"A\", \"vote_user_id_list\": [\"u\"], \"number_of_vote\": 1\x7d, \x7b\"restaurant_id\": \"B\", \"vote_user_id_list\": [\"u\"], \"number_of_vote\": 1\x7d]\x7d"

def c8cexRow : ChatRow := ⟨s2c "s1", s2c "bot", s2c "m1", c8cexContent, s2c "t0"⟩

/-! ## General lemmas about the model -/

theorem exceptBind_ok {α β : Type} (ma : Except VErr α) (f : α → Except VErr β) (b : β) :
    ma >>= f = .ok b ↔ ∃ a, ma = .ok a ∧ f a = .ok b := by
  cases ma <;> simp [Bind.bind, Except.bind]

theorem mapME_ok_iff {α β : Type} (f : α → Except VErr β) :
    ∀ (xs : List α) (ys : List β),
      mapME f xs = .ok ys ↔ List.Forall₂ (fun x y => f x = .ok y) xs ys := by
  intro xs
  induction xs with
  | nil =>
    intro ys
    simp [mapME, List.forall₂_nil_left_iff, eq_comm]
  | cons x xs ih =>
    intro ys
    simp only [mapME, exceptBind_ok]
    constructor
    · rintro ⟨y, hy, ys', hys', h⟩
      rcases h with ⟨⟩
      exact List.Forall₂.cons hy ((ih ys').mp hys')
    · intro h
      cases h with
      | cons hy hys =>
        exact ⟨_, hy, _, (ih _).mpr hys, rfl⟩

theorem lookupKey_objInsert_self (kvs : List (List Char × Json)) (k : List Char) (v : Json) :
    lookupKey (objInsert kvs k v) k = some v := by
  induction kvs with
  | nil => simp [objInsert, lookupKey]
  | cons kv rest ih =>
    rcases kv with ⟨k1, v1⟩
    by_cases h : k1 = k <;> simp [objInsert, lookupKey, h, ih]

theorem lookupKey_objInsert_ne (kvs : List (List Char × Json)) (k k2 : List Char) (v : Json)
    (h : k2 ≠ k) : lookupKey (objInsert kvs k v) k2 = lookupKey kvs k2 := by
  have hne : ¬k = k2 := fun hh => h hh.symm
  induction kvs with
  | nil => simp [objInsert, lookupKey, hne]
  | cons kv rest ih =>
    rcases kv with ⟨k1, v1⟩
    by_cases h1 : k1 = k
    · subst h1
      have hne1 : ¬k1 = k2 := fun hh => h hh.symm
      simp [objInsert, lookupKey, hne1]
    · by_cases h2 : k1 = k2 <;> simp [objInsert, lookupKey, h1, h2, ih, hne, h]

theorem countJ_nil (u : Json) : countJ u [] = 0 := rfl

theorem countJ_cons (u x : Json) (l : List Json) :
    countJ u (x :: l) = countJ u l + if x = u then 1 else 0 := by
  by_cases h : x = u <;> simp [countJ, List.countP_cons, h]

theorem countJ_append (u : Json) (l1 l2 : List Json) :
    countJ u (l1 ++ l2) = countJ u l1 + countJ u l2 := by
  simp [countJ, List.countP_append]

theorem countJ_pos_iff_mem (u : Json) (l : List Json) : 0 < countJ u l ↔ u ∈ l := by
  simp only [countJ, List.countP_pos_iff, decide_eq_true_eq]
  constructor
  · rintro ⟨a, ha, rfl⟩
    exact ha
  · intro h
    exact ⟨u, h, rfl⟩

theorem countJ_eq_zero_iff (u : Json) (l : List Json) : countJ u l = 0 ↔ u ∉ l := by
  rw [← countJ_pos_iff_mem]
  omega

theorem eraseFirst_of_not_mem (u : Json) (l : List Json) (h : u ∉ l) :
    eraseFirst u l = l := by
  induction l with
  | nil => rfl
  | cons x xs ih =>
    simp only [List.mem_cons, not_or] at h
    simp [eraseFirst, fun hh : x = u => h.1 (hh ▸ rfl), ih h.2]
    intro hh
    exact absurd hh.symm h.1

theorem countJ_eraseFirst_ne (u x : Json) (h : x ≠ u) (l : List Json) :
    countJ x (eraseFirst u l) = countJ x l := by
  induction l with
  | nil => rfl
  | cons a as ih =>
    simp only [eraseFirst]
    by_cases ha : a = u
    · rw [if_pos ha, countJ_cons]
      have hc : (if a = x then 1 else 0) = 0 := by
        simp [show ¬a = x from fun hh => h (by rw [← hh, ha])]
      omega
    · rw [if_neg ha, countJ_cons, countJ_cons, ih]

theorem countJ_eraseFirst_self (u : Json) (l : List Json) :
    countJ u (eraseFirst u l) = countJ u l - 1 := by
  induction l with
  | nil => rfl
  | cons a as ih =>
    simp only [eraseFirst]
    by_cases ha : a = u
    · rw [if_pos ha, countJ_cons]
      have hc : (if a = u then 1 else 0) = 1 := by simp [ha]
      omega
    · rw [if_neg ha, countJ_cons, countJ_cons, ih]
      have hc : (if a = u then 1 else 0) = 0 := by simp [ha]
      have hz : u ∈ as ∨ countJ u as = 0 := by
        by_cases hm : u ∈ as
        · exact Or.inl hm
        · exact Or.inr ((countJ_eq_zero_iff u as).mpr hm)
      omega

theorem length_eraseFirst_of_mem (u : Json) (l : List Json) (h : u ∈ l) :
    (eraseFirst u l).length + 1 = l.length := by
  induction l with
  | nil => cases h
  | cons a as ih =>
    by_cases ha : a = u
    · simp [eraseFirst, ha]
    · rcases List.mem_cons.mp h with h1 | h2
      · exact absurd h1.symm ha
      · simp [eraseFirst, ha, ← ih h2]

/-! ## C10 and C7: error behaviour of record_vote -/

/-- C10: whenever `record_vote` raises — message row not found, content
unparsable by both parsers, parsed content not a mapping, or any exception
out of the option loops — the store is returned exactly as it was: every
raising path happens before the single `UPDATE`, which runs only when a
mutation was applied. -/
theorem record_vote_error_atomic (store : List ChatRow) (now sid uid mid tid : List Char)
    (up : Bool) (e : VErr)
    (h : (record_vote store now sid uid mid tid up).2 = .error e) :
    (record_vote store now sid uid mid tid up).1 = store := by
  rcases hf : findContent store sid mid with _ | content
  · simp [record_vote, hf]
  · rcases hp : parseContent content with e' | v
    · simp [record_vote, hf, hp]
    · rcases v with _ | b | n | s | xs | kvs
      · simp [record_vote, hf, hp]
      · simp [record_vote, hf, hp]
      · simp [record_vote, hf, hp]
      · simp [record_vote, hf, hp]
      · simp [record_vote, hf, hp]
      · rcases ha : applyVote kvs uid tid up with e' | r
        · simp [record_vote, hf, hp, ha]
        · rcases r with ⟨kvs', upd, name⟩
          cases upd
          · simp [record_vote, hf, hp, ha]
          · simp [record_vote, hf, hp, ha] at h

/-- Witness for C10 at a concrete failing input (empty store: the row is
not found, the call raises, the store is unchanged). -/
theorem record_vote_error_atomic_witness :
    (record_vote [] (s2c "t") (s2c "s") (s2c "u") (s2c "m") (s2c "A") true).1 = [] :=
  record_vote_error_atomic [] (s2c "t") (s2c "s") (s2c "u") (s2c "m") (s2c "A") true
    VErr.notFound (by decide)

/-- C7: a stored row whose content neither parses as JSON nor as a Python
literal makes `record_vote` fail with the malformed-content error rather
than returning `None`; content that parses to a non-mapping also fails
(with the not-a-mapping error) rather than being silently accepted. -/
theorem record_vote_malformed (store : List ChatRow) (now sid uid mid tid content : List Char)
    (up : Bool) (hf : findContent store sid mid = some content) :
    (json_loads content = none → ast_literal_eval content = none →
      record_vote store now sid uid mid tid up = (store, .error .malformedContent)) ∧
    (∀ v : Json, json_loads content = some v → v.isObj = false →
      record_vote store now sid uid mid tid up = (store, .error .notAMapping)) := by
  constructor
  · intro h1 h2
    simp [record_vote, hf, parseContent, h1, h2]
  · intro v h1 h2
    rcases v with _ | b | n | s | xs | kvs
    · simp [record_vote, hf, parseContent, h1]
    · simp [record_vote, hf, parseContent, h1]
    · simp [record_vote, hf, parseContent, h1]
    · simp [record_vote, hf, parseContent, h1]
    · simp [record_vote, hf, parseContent, h1]
    · simp [Json.isObj] at h2

/-- Witness for C7: the literal string "not json at all" raises the
malformed-content error, and the JSON text "[1]" (an array, not a mapping)
raises the not-a-mapping error. -/
theorem record_vote_malformed_witness :
    record_vote [⟨s2c "s", s2c "bot", s2c "m", s2c "not json at all", s2c "t0"⟩]
        (s2c "t1") (s2c "s") (s2c "u") (s2c "m") (s2c "A") true =
      ([⟨s2c "s", s2c "bot", s2c "m", s2c "not json at all", s2c "t0"⟩],
        .error .malformedContent) ∧
    record_vote [⟨s2c "s", s2c "bot", s2c "m", s2c "[1]", s2c "t0"⟩]
        (s2c "t1") (s2c "s") (s2c "u") (s2c "m") (s2c "A") true =
      ([⟨s2c "s", s2c "bot", s2c "m", s2c "[1]", s2c "t0"⟩], .error .notAMapping) :=
  ⟨(record_vote_malformed _ (s2c "t1") (s2c "s") (s2c "u") (s2c "m") (s2c "A")
      (s2c "not json at all") true (by decide)).1 (by decide) (by decide),
    (record_vote_malformed _ (s2c "t1") (s2c "s") (s2c "u") (s2c "m") (s2c "A")
      (s2c "[1]") true (by decide)).2 (Json.arr [Json.int 1]) (by decide) (by decide)⟩

/-! ## C4 and C6: the Response Normalizer -/

theorem normLoop_parse_ok (mid : List Char) (regen : Nat → Except (List Char) (List Char))
    (remaining a r : Nat) (lastRaw : List Char) (data : Json)
    (hp : json_loads (strip_json_fences lastRaw) = some data) :
    normLoop mid regen (remaining + 1) a r lastRaw =
      ⟨.ok (json_dumps (injectMessageId mid data)), a + 1, r⟩ := by
  simp [normLoop, hp]

theorem normLoop_last_fail (mid : List Char) (regen : Nat → Except (List Char) (List Char))
    (a r : Nat) (lastRaw : List Char)
    (hp : json_loads (strip_json_fences lastRaw) = none) :
    normLoop mid regen 1 a r lastRaw = ⟨.ok lastRaw, a + 1, r⟩ := by
  simp [normLoop, hp]

theorem normLoop_step_regen_ok (mid : List Char) (regen : Nat → Except (List Char) (List Char))
    (remaining a r : Nat) (lastRaw nxt : List Char)
    (hp : json_loads (strip_json_fences lastRaw) = none)
    (hrem : remaining ≠ 0) (hr : regen r = .ok nxt) :
    normLoop mid regen (remaining + 1) a r lastRaw =
      normLoop mid regen remaining (a + 1) (r + 1) nxt := by
  simp [normLoop, hp, hrem, hr]

theorem normLoop_step_regen_err (mid : List Char) (regen : Nat → Except (List Char) (List Char))
    (remaining a r : Nat) (lastRaw e : List Char)
    (hp : json_loads (strip_json_fences lastRaw) = none)
    (hrem : remaining ≠ 0) (hr : regen r = .error e) :
    normLoop mid regen (remaining + 1) a r lastRaw = ⟨.error e, a + 1, r + 1⟩ := by
  simp [normLoop, hp, hrem, hr]

/-- C4 (amended): whenever the raw text, after trimming leading whitespace
and lowercasing, does not contain a JSON-tagged fence marker and does not
start with a brace or a bracket, the normaliser returns it unchanged,
makes no parse attempt and never calls `regenerate`.  (The converse of the
original claim fails, see the counterexample: the fence marker is detected
by containment, not only at the start, and a structured input whose
canonical re-serialisation equals the input is also returned unchanged.) -/
theorem normalize_passthrough (mid : List Char)
    (regen : Nat → Except (List Char) (List Char)) (response : List Char)
    (h : specStructured response = false) :
    normalize_response mid regen response = ⟨.ok response, 0, 0⟩ := by
  have hl : looks_like_json response = false := h
  simp [normalize_response, hl]

/-- Witness for C4 at the spec's own example input. -/
theorem normalize_passthrough_witness :
    normalize_response (s2c "u") (fun _ => .ok (s2c "x"))
      (s2c "Here are some restaurants near you") =
      ⟨.ok (s2c "Here are some restaurants near you"), 0, 0⟩ :=
  normalize_passthrough (s2c "u") (fun _ => .ok (s2c "x"))
    (s2c "Here are some restaurants near you") (by decide)

/-- Counterexample to C4 as stated.  The claim says the normaliser returns
the input unchanged and never calls `regenerate` exactly when the input
does not start with a fence marker, `\x7b` or `[`.  Both directions fail on
the code: the text "see " followed by a fence marker does not start with
one, yet the code classifies it as structured and calls `regenerate` twice
(returning the last candidate, not the input); and the input "[1]" is
structured, yet is returned unchanged with no `regenerate` call, because
its canonical re-serialisation equals the input. -/
theorem normalize_passthrough_cex :
    (claimStartsStructured (s2c "see \x60\x60\x60json") = false ∧
      normalize_response (s2c "u") (fun _ => .ok (s2c "x")) (s2c "see \x60\x60\x60json") =
        ⟨.ok (s2c "x"), 3, 2⟩) ∧
    (claimStartsStructured (s2c "[1]") = true ∧
      normalize_response (s2c "u") (fun _ => .ok (s2c "x")) (s2c "[1]") =
        ⟨.ok (s2c "[1]"), 1, 0⟩) :=
  ⟨⟨by decide, by decide⟩, by decide, by decide⟩

/-- C6: when the first candidate is classified as structured and every
candidate fails to parse, the loop makes exactly 3 parse attempts, calls
`regenerate` exactly twice, raises nothing for the parse failures and
returns the last raw candidate as-is; an exception raised by `regenerate`
itself propagates to the caller. -/
theorem normalize_retry_exhaustion (mid : List Char)
    (regen : Nat → Except (List Char) (List Char)) (response : List Char)
    (h0 : looks_like_json response = true)
    (hp0 : json_loads (strip_json_fences response) = none) :
    (∀ r1 r2 : List Char, regen 0 = .ok r1 → json_loads (strip_json_fences r1) = none →
      regen 1 = .ok r2 → json_loads (strip_json_fences r2) = none →
      normalize_response mid regen response = ⟨.ok r2, 3, 2⟩) ∧
    (∀ e : List Char, regen 0 = .error e →
      normalize_response mid regen response = ⟨.error e, 1, 1⟩) := by
  constructor
  · intro r1 r2 hr1 hp1 hr2 hp2
    have h3 : (3 : Nat) = 2 + 1 := rfl
    have h2 : (2 : Nat) = 1 + 1 := rfl
    rw [normalize_response, if_pos h0, h3,
      normLoop_step_regen_ok mid regen 2 0 0 response r1 hp0 (by omega) hr1, h2,
      normLoop_step_regen_ok mid regen 1 1 1 r1 r2 hp1 (by omega) hr2,
      normLoop_last_fail mid regen 2 2 r2 hp2]
  · intro e he
    have h3 : (3 : Nat) = 2 + 1 := rfl
    rw [normalize_response, if_pos h0, h3,
      normLoop_step_regen_err mid regen 2 0 0 response e hp0 (by omega) he]

/-- Witness for C6: the spec's own stub (every candidate is the unparsable
structured-looking text) makes exactly 3 attempts and 2 regenerate calls
and returns the last candidate; a raising regenerate propagates. -/
theorem normalize_retry_exhaustion_witness :
    normalize_response (s2c "u") (fun _ => .ok (s2c "\x7bnot json")) (s2c "\x7bnot json") =
      ⟨.ok (s2c "\x7bnot json"), 3, 2⟩ ∧
    normalize_response (s2c "u") (fun _ => .error (s2c "agent down")) (s2c "\x7bnot json") =
      ⟨.error (s2c "agent down"), 1, 1⟩ :=
  ⟨(normalize_retry_exhaustion (s2c "u") (fun _ => .ok (s2c "\x7bnot json"))
      (s2c "\x7bnot json") (by decide) (by decide)).1 (s2c "\x7bnot json")
      (s2c "\x7bnot json") (by decide) (by decide) (by decide) (by decide),
    (normalize_retry_exhaustion (s2c "u") (fun _ => .error (s2c "agent down"))
      (s2c "\x7bnot json") (by decide) (by decide)).2 (s2c "agent down") (by decide)⟩

/-! ## C2: count consistency of record_vote -/

theorem forall₂_transfer {α β : Type} {R : α → β → Prop} {P : α → Prop} {Q : β → Prop}
    (h : ∀ x y, P x → R x y → Q y) :
    ∀ {xs : List α} {ys : List β}, List.Forall₂ R xs ys → (∀ x ∈ xs, P x) →
      ∀ y ∈ ys, Q y := by
  intro xs ys hf
  induction hf with
  | nil =>
    intro _ y hy
    cases hy
  | @cons x y xs ys hxy htail ih =>
    intro hp z hz
    rcases List.mem_cons.mp hz with rfl | hz2
    · exact h _ _ (hp _ (List.mem_cons_self _ _)) hxy
    · exact ih (fun a ha => hp a (List.mem_cons_of_mem _ ha)) z hz2

theorem initOption_of_count (o : Json) (hc : OptionCountOk o) : initOption o = .ok o := by
  rcases hc with ⟨os, l, nv, rfl, hl, hn, _⟩
  simp [initOption, hl, hn]

theorem phase2_count (uid tid : List Char) (o o' : Json) (b : Bool)
    (hc : OptionCountOk o) (hok : phase2 uid tid o = .ok (o', b)) :
    OptionCountOk o' := by
  rcases hc with ⟨os, l, nv, rfl, hl, hn, ha⟩
  rcases hr : lookupKey os ridK with _ | rid
  · have heq : phase2 uid tid (.obj os) = .error .keyError := by
      simp [phase2, getKey, hr, Bind.bind, Except.bind]
    rw [heq] at hok
    cases hok
  · by_cases ht : rid = Json.str tid
    · have heq : phase2 uid tid (.obj os) = .ok (.obj os, false) := by
        simp [phase2, getKey, hr, ht, Bind.bind, Except.bind]
      rw [heq] at hok
      injection hok with h
      injection h with h1 h2
      subst h1
      exact ⟨os, l, nv, rfl, hl, hn, ha⟩
    · by_cases hm : Json.str uid ∈ l
      · have heq : phase2 uid tid (.obj os) =
            .ok (.obj (objInsert (objInsert os voteListK (.arr (eraseFirst (.str uid) l)))
              voteNumK (.int (max 0 (Int.ofNat l.length - 1)))), true) := by
          simp [phase2, getKey, hr, ht, hl, hn, ha, pyContains, hm, listRemove,
            Bind.bind, Except.bind]
        rw [heq] at hok
        injection hok with h
        injection h with h1 h2
        subst h1
        refine ⟨_, eraseFirst (.str uid) l, _, rfl, ?_, lookupKey_objInsert_self _ _ _, ?_⟩
        · rw [lookupKey_objInsert_ne _ _ _ _ (by decide)]
          exact lookupKey_objInsert_self _ _ _
        · have hlen := length_eraseFirst_of_mem _ l hm
          simp only [asNum, Except.ok.injEq, Int.ofNat_eq_natCast]
          omega
      · have heq : phase2 uid tid (.obj os) = .ok (.obj os, false) := by
          simp [phase2, getKey, hr, ht, hl, pyContains, hm, Bind.bind, Except.bind]
        rw [heq] at hok
        injection hok with h
        injection h with h1 h2
        subst h1
        exact ⟨os, l, nv, rfl, hl, hn, ha⟩

theorem phase3_count (uid tid : List Char) (up : Bool) (o o' : Json) (b : Bool)
    (nm : Option Json) (hc : OptionCountOk o)
    (hok : phase3 uid tid up o = .ok (o', b, nm)) : OptionCountOk o' := by
  rcases hc with ⟨os, l, nv, rfl, hl, hn, ha⟩
  rcases hr : lookupKey os ridK with _ | rid
  · have heq : phase3 uid tid up (.obj os) = .error .keyError := by
      simp [phase3, getKey, hr, Bind.bind, Except.bind]
    rw [heq] at hok
    cases hok
  · by_cases ht : rid = Json.str tid
    · by_cases hm : Json.str uid ∈ l
      · cases up
        · -- down-vote on a member: remove and floored decrement
          have heq : phase3 uid tid false (.obj os) =
              .ok (.obj (objInsert (objInsert os voteListK (.arr (eraseFirst (.str uid) l)))
                voteNumK (.int (max 0 (Int.ofNat l.length - 1)))), true,
                some ((lookupKey os rNameK).getD (.str (s2c "this restaurant")))) := by
            simp [phase3, getKey, hr, ht, hl, hn, ha, pyContains, hm, listRemove,
              Bind.bind, Except.bind]
          rw [heq] at hok
          injection hok with h
          injection h with h1 h2
          subst h1
          refine ⟨_, eraseFirst (.str uid) l, _, rfl, ?_, lookupKey_objInsert_self _ _ _, ?_⟩
          · rw [lookupKey_objInsert_ne _ _ _ _ (by decide)]
            exact lookupKey_objInsert_self _ _ _
          · have hlen := length_eraseFirst_of_mem _ l hm
            simp only [asNum, Except.ok.injEq, Int.ofNat_eq_natCast]
            omega
        · -- up-vote on a member: no change
          have heq : phase3 uid tid true (.obj os) = .ok (.obj os, false,
              some ((lookupKey os rNameK).getD (.str (s2c "this restaurant")))) := by
            simp [phase3, getKey, hr, ht, hl, pyContains, hm, Bind.bind, Except.bind]
          rw [heq] at hok
          injection hok with h
          injection h with h1 h2
          subst h1
          exact ⟨os, l, nv, rfl, hl, hn, ha⟩
      · cases up
        · -- down-vote on a non-member: no change
          have heq : phase3 uid tid false (.obj os) = .ok (.obj os, false,
              some ((lookupKey os rNameK).getD (.str (s2c "this restaurant")))) := by
            simp [phase3, getKey, hr, ht, hl, pyContains, hm, Bind.bind, Except.bind]
          rw [heq] at hok
          injection hok with h
          injection h with h1 h2
          subst h1
          exact ⟨os, l, nv, rfl, hl, hn, ha⟩
        · -- up-vote on a non-member: append and increment
          have heq : phase3 uid tid true (.obj os) =
              .ok (.obj (objInsert (objInsert os voteListK (.arr (l ++ [.str uid])))
                voteNumK (.int (Int.ofNat l.length + 1))), true,
                some ((lookupKey os rNameK).getD (.str (s2c "this restaurant")))) := by
            simp [phase3, getKey, hr, ht, hl, hn, ha, pyContains, hm, listAppend,
              Bind.bind, Except.bind]
          rw [heq] at hok
          injection hok with h
          injection h with h1 h2
          subst h1
          refine ⟨_, l ++ [.str uid], _, rfl, ?_, lookupKey_objInsert_self _ _ _, ?_⟩
          · rw [lookupKey_objInsert_ne _ _ _ _ (by decide)]
            exact lookupKey_objInsert_self _ _ _
          · simp only [asNum, Except.ok.injEq, List.length_append, List.length_cons,
              List.length_nil, Int.ofNat_eq_natCast]
            omega
    · have heq : phase3 uid tid up (.obj os) = .ok (.obj os, false, none) := by
        simp [phase3, getKey, hr, ht, Bind.bind, Except.bind]
      rw [heq] at hok
      injection hok with h
      injection h with h1 h2
      subst h1
      exact ⟨os, l, nv, rfl, hl, hn, ha⟩

theorem mapME_id_of {α : Type} (f : α → Except VErr α) :
    ∀ xs : List α, (∀ x ∈ xs, f x = .ok x) → mapME f xs = .ok xs := by
  intro xs
  induction xs with
  | nil => intro _; rfl
  | cons x t ih =>
    intro h
    have hx := h x (List.mem_cons_self _ _)
    have ht := ih (fun a ha => h a (List.mem_cons_of_mem _ ha))
    simp [mapME, hx, ht, Bind.bind, Except.bind]

theorem map_fst_map_pair {α : Type} (xs : List α) :
    (List.map (fun o : α => (o, false)) xs).map (fun q : α × Bool => q.1) = xs := by
  induction xs with
  | nil => rfl
  | cons a t ih => simp [ih]

/-- C2: on a card in which every option carries both vote fields with
`number_of_vote` equal to the length of `vote_user_id_list`, any
`record_vote` mutation that completes (the card mutation `applyVote` of
`record_vote`) leaves every option with `number_of_vote` equal to its
list's length again, and no count is negative in the resulting card. -/
theorem record_vote_count_consistency
    (kvs kvs' : List (List Char × Json)) (uid tid : List Char) (up : Bool)
    (upd : Bool) (name : Option Json) (opts : List Json)
    (hopts : lookupKey kvs voteOptionsK = some (.arr opts))
    (hwf : ∀ o ∈ opts, OptionCountOk o)
    (happ : applyVote kvs uid tid up = .ok (kvs', upd, name)) :
    ∃ opts', lookupKey kvs' voteOptionsK = some (.arr opts') ∧
      (∀ o' ∈ opts', OptionCountOk o') ∧
      (∀ o' ∈ opts', ∀ os nv n, o' = Json.obj os → lookupKey os voteNumK = some nv →
        asNum nv = .ok n → 0 ≤ n) := by
  have hinit : mapME initOption opts = .ok opts :=
    mapME_id_of _ opts (fun o ho => initOption_of_count o (hwf o ho))
  rw [applyVote, hopts] at happ
  simp only [hinit, Bind.bind, Except.bind] at happ
  cases up
  · -- down-vote: the phase-2 stage is the identity pairing
    simp only [Bool.false_eq_true, if_false] at happ
    rw [map_fst_map_pair] at happ
    rcases h3 : mapME (phase3 uid tid false) opts with e3 | p3
    · simp only [h3] at happ
      exact Except.noConfusion happ
    · simp only [h3, Except.ok.injEq, Prod.mk.injEq] at happ
      rcases happ with ⟨hkvs, _, _⟩
      subst hkvs
      have hf3 := (mapME_ok_iff (phase3 uid tid false) opts p3).mp h3
      have hall : ∀ z ∈ p3, OptionCountOk z.1 := by
        refine forall₂_transfer ?_ hf3 hwf
        intro x y hp hr
        rcases y with ⟨o', b, nm⟩
        exact phase3_count uid tid false x o' b nm hp hr
      refine ⟨p3.map (fun q => q.1), lookupKey_objInsert_self _ _ _, ?_, ?_⟩
      · intro o' ho'
        rcases List.mem_map.mp ho' with ⟨z, hz, rfl⟩
        exact hall z hz
      · intro o' ho' os nv n hobj hnum hnv
        rcases List.mem_map.mp ho' with ⟨z, hz, rfl⟩
        rcases hall z hz with ⟨os0, l0, nv0, hobj0, _, hnum0, ha0⟩
        rw [hobj0] at hobj
        injection hobj with hos
        subst hos
        rw [hnum0] at hnum
        injection hnum with hnveq
        subst hnveq
        rw [ha0] at hnv
        injection hnv with hn
        rw [Int.ofNat_eq_natCast] at hn
        omega
  · -- up-vote: the phase-2 stage runs over every option
    simp only [if_true] at happ
    rcases h2 : mapME (phase2 uid tid) opts with e2 | p2
    · simp only [h2] at happ
      exact Except.noConfusion happ
    · simp only [h2] at happ
      have hf2 := (mapME_ok_iff (phase2 uid tid) opts p2).mp h2
      have hall2 : ∀ y ∈ p2, OptionCountOk y.1 := by
        refine forall₂_transfer ?_ hf2 hwf
        intro x y hp hr
        rcases y with ⟨o2, b⟩
        exact phase2_count uid tid x o2 b hp hr
      have hxs2 : ∀ o2 ∈ p2.map (fun q : Json × Bool => q.1), OptionCountOk o2 := by
        intro o2 ho2
        rcases List.mem_map.mp ho2 with ⟨y, hy, rfl⟩
        exact hall2 y hy
      rcases h3 : mapME (phase3 uid tid true) (p2.map (fun q => q.1)) with e3 | p3
      · simp only [h3] at happ
        exact Except.noConfusion happ
      · simp only [h3, Except.ok.injEq, Prod.mk.injEq] at happ
        rcases happ with ⟨hkvs, _, _⟩
        subst hkvs
        have hf3 := (mapME_ok_iff (phase3 uid tid true) _ p3).mp h3
        have hall : ∀ z ∈ p3, OptionCountOk z.1 := by
          refine forall₂_transfer ?_ hf3 hxs2
          intro x y hp hr
          rcases y with ⟨o', b, nm⟩
          exact phase3_count uid tid true x o' b nm hp hr
        refine ⟨p3.map (fun q => q.1), lookupKey_objInsert_self _ _ _, ?_, ?_⟩
        · intro o' ho'
          rcases List.mem_map.mp ho' with ⟨z, hz, rfl⟩
          exact hall z hz
        · intro o' ho' os nv n hobj hnum hnv
          rcases List.mem_map.mp ho' with ⟨z, hz, rfl⟩
          rcases hall z hz with ⟨os0, l0, nv0, hobj0, _, hnum0, ha0⟩
          rw [hobj0] at hobj
          injection hobj with hos
          subst hos
          rw [hnum0] at hnum
          injection hnum with hnveq
          subst hnveq
          rw [ha0] at hnv
          injection hnv with hn
          rw [Int.ofNat_eq_natCast] at hn
          omega

/-! ## C1: the single-choice invariant -/

theorem optList_obj (os : List (List Char × Json)) (l : List Json)
    (hl : lookupKey os voteListK = some (.arr l)) : optList (.obj os) = l := by
  simp [optList, hl]

theorem initOption_shape (o o' : Json) (h : OptionVoteOk o)
    (hok : initOption o = .ok o') :
    OptionVoteOk o' ∧ optList o' = optList o ∧ optRid o' = optRid o ∧
      (∀ l, lookupKey (match o' with | .obj os => os | _ => []) voteListK = some (.arr l) →
        optList o' = l) := by
  rcases h with ⟨os, r, l, rfl, hr, hl⟩
  have heq : initOption (.obj os) =
      .ok (.obj (if (lookupKey os voteNumK).isSome then os
        else objInsert os voteNumK (.int 0))) := by
    simp [initOption, hl]
  rw [heq] at hok
  injection hok with h1
  subst h1
  by_cases hn : (lookupKey os voteNumK).isSome
  · rw [if_pos hn]
    refine ⟨⟨os, r, l, rfl, hr, hl⟩, rfl, rfl, ?_⟩
    intro l2 hl2
    exact optList_obj _ _ hl2
  · rw [if_neg hn]
    have hr2 : lookupKey (objInsert os voteNumK (.int 0)) ridK = some (.str r) := by
      rw [lookupKey_objInsert_ne _ _ _ _ (by decide)]
      exact hr
    have hl2 : lookupKey (objInsert os voteNumK (.int 0)) voteListK = some (.arr l) := by
      rw [lookupKey_objInsert_ne _ _ _ _ (by decide)]
      exact hl
    refine ⟨⟨_, r, l, rfl, hr2, hl2⟩, ?_, ?_, ?_⟩
    · rw [optList_obj _ _ hl2, optList_obj _ _ hl]
    · simp [optRid, hr, hr2]
    · intro l2 hl2'
      exact optList_obj _ _ hl2'

theorem phase2_shape (uid tid : List Char) (o o' : Json) (b : Bool)
    (h : OptionVoteOk o) (hok : phase2 uid tid o = .ok (o', b)) :
    OptionVoteOk o' ∧ optRid o' = optRid o ∧
    ((optRid o = some (.str tid) ∨ Json.str uid ∉ optList o) ∧ o' = o ∧ b = false ∨
     optRid o ≠ some (.str tid) ∧ Json.str uid ∈ optList o ∧
       optList o' = eraseFirst (.str uid) (optList o) ∧ b = true) := by
  rcases h with ⟨os, r, l, rfl, hr, hl⟩
  have hrid : optRid (.obj os) = some (.str r) := by simp [optRid, hr]
  have hlst : optList (.obj os) = l := optList_obj _ _ hl
  by_cases ht : r = tid
  · have heq : phase2 uid tid (.obj os) = .ok (.obj os, false) := by
      simp [phase2, getKey, hr, ht, Bind.bind, Except.bind]
    rw [heq] at hok
    injection hok with h1
    injection h1 with h1 h2
    subst h1
    exact ⟨⟨os, r, l, rfl, hr, hl⟩, rfl,
      Or.inl ⟨Or.inl (by rw [hrid, ht]), rfl, h2.symm⟩⟩
  · have htne : ¬(Json.str r = Json.str tid) := fun hh => ht (Json.str.inj hh)
    by_cases hm : Json.str uid ∈ l
    · rcases hn : lookupKey os voteNumK with _ | nv
      · have heq : phase2 uid tid (.obj os) = .error .keyError := by
          simp [phase2, getKey, hr, htne, hl, pyContains, hm, listRemove, hn,
            Bind.bind, Except.bind]
        rw [heq] at hok
        cases hok
      · rcases ha : asNum nv with e | n
        · have heq : phase2 uid tid (.obj os) = .error e := by
            simp [phase2, getKey, hr, htne, hl, pyContains, hm, listRemove, hn, ha,
              Bind.bind, Except.bind]
          rw [heq] at hok
          cases hok
        · have heq : phase2 uid tid (.obj os) =
              .ok (.obj (objInsert (objInsert os voteListK
                (.arr (eraseFirst (.str uid) l))) voteNumK (.int (max 0 (n - 1)))), true) := by
            simp [phase2, getKey, hr, htne, hl, pyContains, hm, listRemove, hn, ha,
              Bind.bind, Except.bind]
          rw [heq] at hok
          injection hok with h1
          injection h1 with h1 h2
          subst h1
          have hl' : lookupKey (objInsert (objInsert os voteListK
              (.arr (eraseFirst (.str uid) l))) voteNumK (.int (max 0 (n - 1)))) voteListK =
              some (.arr (eraseFirst (.str uid) l)) := by
            rw [lookupKey_objInsert_ne _ _ _ _ (by decide)]
            exact lookupKey_objInsert_self _ _ _
          have hr' : lookupKey (objInsert (objInsert os voteListK
              (.arr (eraseFirst (.str uid) l))) voteNumK (.int (max 0 (n - 1)))) ridK =
              some (.str r) := by
            rw [lookupKey_objInsert_ne _ _ _ _ (by decide),
              lookupKey_objInsert_ne _ _ _ _ (by decide)]
            exact hr
          refine ⟨⟨_, r, _, rfl, hr', hl'⟩, ?_, Or.inr ⟨?_, ?_, ?_, h2.symm⟩⟩
          · simp [optRid, hr, hr']
          · rw [hrid]
            intro hh
            injection hh with hh2
            exact htne (hh2 ▸ rfl)
          · rw [hlst]
            exact hm
          · rw [optList_obj _ _ hl', hlst]
    · have heq : phase2 uid tid (.obj os) = .ok (.obj os, false) := by
        simp [phase2, getKey, hr, htne, hl, pyContains, hm, Bind.bind, Except.bind]
      rw [heq] at hok
      injection hok with h1
      injection h1 with h1 h2
      subst h1
      exact ⟨⟨os, r, l, rfl, hr, hl⟩, rfl, Or.inl ⟨Or.inr (by rw [hlst]; exact hm), rfl, h2.symm⟩⟩

theorem phase3_shape (uid tid : List Char) (up : Bool) (o o' : Json) (b : Bool)
    (nm : Option Json) (h : OptionVoteOk o)
    (hok : phase3 uid tid up o = .ok (o', b, nm)) :
    OptionVoteOk o' ∧ optRid o' = optRid o ∧
    (optRid o ≠ some (.str tid) ∧ o' = o ∧ b = false ∨
     optRid o = some (.str tid) ∧
       (up = true ∧ Json.str uid ∈ optList o ∧ o' = o ∧ b = false ∨
        up = true ∧ Json.str uid ∉ optList o ∧
          optList o' = optList o ++ [.str uid] ∧ b = true ∨
        up = false ∧ Json.str uid ∈ optList o ∧
          optList o' = eraseFirst (.str uid) (optList o) ∧ b = true ∨
        up = false ∧ Json.str uid ∉ optList o ∧ o' = o ∧ b = false)) := by
  rcases h with ⟨os, r, l, rfl, hr, hl⟩
  have hrid : optRid (.obj os) = some (.str r) := by simp [optRid, hr]
  have hlst : optList (.obj os) = l := optList_obj _ _ hl
  by_cases ht : r = tid
  · subst ht
    have hmem : Json.str uid ∈ optList (.obj os) ↔ Json.str uid ∈ l := by rw [hlst]
    cases up
    · by_cases hm : Json.str uid ∈ l
      · rcases hn : lookupKey os voteNumK with _ | nv
        · have heq : phase3 uid r false (.obj os) = .error .keyError := by
            simp [phase3, getKey, hr, hl, pyContains, hm, listRemove, hn,
              Bind.bind, Except.bind]
          rw [heq] at hok
          cases hok
        · rcases ha : asNum nv with e | n
          · have heq : phase3 uid r false (.obj os) = .error e := by
              simp [phase3, getKey, hr, hl, pyContains, hm, listRemove, hn, ha,
                Bind.bind, Except.bind]
            rw [heq] at hok
            cases hok
          · have heq : phase3 uid r false (.obj os) =
                .ok (.obj (objInsert (objInsert os voteListK
                  (.arr (eraseFirst (.str uid) l))) voteNumK (.int (max 0 (n - 1)))), true,
                  some ((lookupKey os rNameK).getD (.str (s2c "this restaurant")))) := by
              simp [phase3, getKey, hr, hl, pyContains, hm, listRemove, hn, ha,
                Bind.bind, Except.bind]
            rw [heq] at hok
            injection hok with h1
            injection h1 with h1 h2
            injection h2 with h2 h3
            subst h1
            have hl' : lookupKey (objInsert (objInsert os voteListK
                (.arr (eraseFirst (.str uid) l))) voteNumK (.int (max 0 (n - 1)))) voteListK =
                some (.arr (eraseFirst (.str uid) l)) := by
              rw [lookupKey_objInsert_ne _ _ _ _ (by decide)]
              exact lookupKey_objInsert_self _ _ _
            have hr' : lookupKey (objInsert (objInsert os voteListK
                (.arr (eraseFirst (.str uid) l))) voteNumK (.int (max 0 (n - 1)))) ridK =
                some (.str r) := by
              rw [lookupKey_objInsert_ne _ _ _ _ (by decide),
                lookupKey_objInsert_ne _ _ _ _ (by decide)]
              exact hr
            refine ⟨⟨_, r, _, rfl, hr', hl'⟩, by simp [optRid, hr, hr'], Or.inr ⟨hrid, ?_⟩⟩
            refine Or.inr (Or.inr (Or.inl ⟨rfl, hmem.mpr hm, ?_, h2.symm⟩))
            rw [optList_obj _ _ hl', hlst]
      · have heq : phase3 uid r false (.obj os) = .ok (.obj os, false,
            some ((lookupKey os rNameK).getD (.str (s2c "this restaurant")))) := by
          simp [phase3, getKey, hr, hl, pyContains, hm, Bind.bind, Except.bind]
        rw [heq] at hok
        injection hok with h1
        injection h1 with h1 h2
        injection h2 with h2 h3
        subst h1
        exact ⟨⟨os, r, l, rfl, hr, hl⟩, rfl, Or.inr ⟨hrid,
          Or.inr (Or.inr (Or.inr ⟨rfl, fun hmm => hm (hmem.mp hmm), rfl, h2.symm⟩))⟩⟩
    · by_cases hm : Json.str uid ∈ l
      · have heq : phase3 uid r true (.obj os) = .ok (.obj os, false,
            some ((lookupKey os rNameK).getD (.str (s2c "this restaurant")))) := by
          simp [phase3, getKey, hr, hl, pyContains, hm, Bind.bind, Except.bind]
        rw [heq] at hok
        injection hok with h1
        injection h1 with h1 h2
        injection h2 with h2 h3
        subst h1
        exact ⟨⟨os, r, l, rfl, hr, hl⟩, rfl, Or.inr ⟨hrid,
          Or.inl ⟨rfl, hmem.mpr hm, rfl, h2.symm⟩⟩⟩
      · rcases hn : lookupKey os voteNumK with _ | nv
        · have heq : phase3 uid r true (.obj os) = .error .keyError := by
            simp [phase3, getKey, hr, hl, pyContains, hm, listAppend, hn,
              Bind.bind, Except.bind]
          rw [heq] at hok
          cases hok
        · rcases ha : asNum nv with e | n
          · have heq : phase3 uid r true (.obj os) = .error e := by
              simp [phase3, getKey, hr, hl, pyContains, hm, listAppend, hn, ha,
                Bind.bind, Except.bind]
            rw [heq] at hok
            cases hok
          · have heq : phase3 uid r true (.obj os) =
                .ok (.obj (objInsert (objInsert os voteListK
                  (.arr (l ++ [.str uid]))) voteNumK (.int (n + 1))), true,
                  some ((lookupKey os rNameK).getD (.str (s2c "this restaurant")))) := by
              simp [phase3, getKey, hr, hl, pyContains, hm, listAppend, hn, ha,
                Bind.bind, Except.bind]
            rw [heq] at hok
            injection hok with h1
            injection h1 with h1 h2
            injection h2 with h2 h3
            subst h1
            have hl' : lookupKey (objInsert (objInsert os voteListK
                (.arr (l ++ [.str uid]))) voteNumK (.int (n + 1))) voteListK =
                some (.arr (l ++ [.str uid])) := by
              rw [lookupKey_objInsert_ne _ _ _ _ (by decide)]
              exact lookupKey_objInsert_self _ _ _
            have hr' : lookupKey (objInsert (objInsert os voteListK
                (.arr (l ++ [.str uid]))) voteNumK (.int (n + 1))) ridK =
                some (.str r) := by
              rw [lookupKey_objInsert_ne _ _ _ _ (by decide),
                lookupKey_objInsert_ne _ _ _ _ (by decide)]
              exact hr
            refine ⟨⟨_, r, _, rfl, hr', hl'⟩, by simp [optRid, hr, hr'], Or.inr ⟨hrid, ?_⟩⟩
            refine Or.inr (Or.inl ⟨rfl, fun hmm => hm (hmem.mp hmm), ?_, h2.symm⟩)
            rw [optList_obj _ _ hl', hlst]
  · have htne : ¬(Json.str r = Json.str tid) := fun hh => ht (Json.str.inj hh)
    have heq : phase3 uid tid up (.obj os) = .ok (.obj os, false, none) := by
      simp [phase3, getKey, hr, htne, Bind.bind, Except.bind]
    rw [heq] at hok
    injection hok with h1
    injection h1 with h1 h2
    injection h2 with h2 h3
    subst h1
    refine ⟨⟨os, r, l, rfl, hr, hl⟩, rfl, Or.inl ⟨?_, rfl, h2.symm⟩⟩
    rw [hrid]
    intro hh
    injection hh with hh2
    exact htne (hh2 ▸ rfl)

theorem forall₂_comp {α β γ : Type} {R : α → β → Prop} {S : β → γ → Prop}
    {T : α → γ → Prop} (h : ∀ a b c, R a b → S b c → T a c) :
    ∀ {xs : List α} {ys : List β} {zs : List γ},
      List.Forall₂ R xs ys → List.Forall₂ S ys zs → List.Forall₂ T xs zs := by
  intro xs ys zs h1
  induction h1 generalizing zs with
  | nil =>
    intro h2
    cases h2
    exact .nil
  | @cons a b xs ys hab htail ih =>
    intro h2
    cases h2 with
    | cons hbc h2tail => exact .cons (h _ _ _ hab hbc) (ih h2tail)

theorem forall₂_map_right {α β γ : Type} {R : α → β → Prop} (f : β → γ) :
    ∀ {xs : List α} {ys : List β}, List.Forall₂ R xs ys →
      List.Forall₂ (fun a c => ∃ b, R a b ∧ f b = c) xs (ys.map f) := by
  intro xs ys h
  induction h with
  | nil => exact .nil
  | cons hab htail ih => exact .cons ⟨_, hab, rfl⟩ ih

theorem forall₂_mono_mem {α β : Type} {R S : α → β → Prop} {P : α → Prop}
    (h : ∀ a b, P a → R a b → S a b) :
    ∀ {xs : List α} {ys : List β}, List.Forall₂ R xs ys → (∀ a ∈ xs, P a) →
      List.Forall₂ S xs ys := by
  intro xs ys hf
  induction hf with
  | nil => intro _; exact .nil
  | @cons a b xs ys hab htail ih =>
    intro hp
    exact .cons (h _ _ (hp _ (List.mem_cons_self _ _)) hab)
      (ih (fun x hx => hp x (List.mem_cons_of_mem _ hx)))

theorem countJ_single_ne (x u : Json) (h : x ≠ u) : countJ x [u] = 0 := by
  have hux : ¬u = x := fun hh => h hh.symm
  rw [countJ_cons, countJ_nil]
  simp [hux]

theorem countJ_single_self (u : Json) : countJ u [u] = 1 := by
  rw [countJ_cons, countJ_nil]
  simp

theorem upEffect_of (uid tid : List Char) (o o1 : Json) (y2 : Json × Bool)
    (y3 : Json × Bool × Option Json) (h : OptionVoteOk o)
    (h1 : initOption o = .ok o1) (h2 : phase2 uid tid o1 = .ok y2)
    (h3 : phase3 uid tid true y2.1 = .ok y3) : UpEffect uid tid o y3.1 := by
  obtain ⟨hwf1, hl1, hr1, -⟩ := initOption_shape o o1 h h1
  rcases y2 with ⟨o2, b2⟩
  obtain ⟨hwf2, hr2, hd2⟩ := phase2_shape uid tid o1 o2 b2 hwf1 h2
  rcases y3 with ⟨o3, b3, nm⟩
  obtain ⟨hwf3, hr3, hd3⟩ := phase3_shape uid tid true o2 o3 b3 nm hwf2 h3
  have hrid2 : optRid o2 = optRid o := by rw [hr2, hr1]
  have hrid : optRid o3 = optRid o := by rw [hr3, hrid2]
  refine ⟨hrid, ?_, ?_, ?_⟩
  · -- other user identifiers are untouched
    intro x hx
    rcases hd2 with ⟨-, he2, -⟩ | ⟨hnt1, hm1, hl2, -⟩
    · have hlo : optList o2 = optList o := by rw [he2, hl1]
      rcases hd3 with ⟨-, he3, -⟩ | ⟨-, hcase⟩
      · rw [he3, hlo]
      · rcases hcase with ⟨-, -, he3, -⟩ | ⟨-, -, hl3, -⟩ | ⟨hup, -⟩ | ⟨hup, -⟩
        · rw [he3, hlo]
        · rw [hl3, countJ_append, countJ_single_ne x _ hx, hlo]
          omega
        · cases hup
        · cases hup
    · rcases hd3 with ⟨-, he3, -⟩ | ⟨hteq2, -⟩
      · rw [he3, hl2, countJ_eraseFirst_ne _ _ hx, hl1]
      · exact absurd (hr2.symm.trans hteq2) hnt1
  · -- a non-target option ends with no occurrence of the user
    intro hnt hle
    rcases hd2 with ⟨hcond, he2, -⟩ | ⟨hnt1, hm1, hl2, -⟩
    · have hlo : optList o2 = optList o := by rw [he2, hl1]
      have hnm : Json.str uid ∉ optList o2 := by
        rcases hcond with hc | hc
        · exact absurd (hr1.symm.trans hc) hnt
        · rw [he2]
          exact hc
      rcases hd3 with ⟨-, he3, -⟩ | ⟨hteq2, -⟩
      · rw [he3]
        exact (countJ_eq_zero_iff _ _).mpr hnm
      · exact absurd (hrid2.symm.trans hteq2) hnt
    · rcases hd3 with ⟨-, he3, -⟩ | ⟨hteq2, -⟩
      · rw [he3, hl2, countJ_eraseFirst_self]
        have hpos : 0 < countJ (.str uid) (optList o1) := (countJ_pos_iff_mem _ _).mpr hm1
        rw [hl1] at hpos
        rw [hl1]
        omega
      · have : optRid o2 = some (.str tid) := hteq2
        rw [hrid2] at this
        exact absurd this hnt
  · -- the target option ends with exactly one occurrence of the user
    intro hteq
    rcases hd2 with ⟨-, he2, -⟩ | ⟨hnt1, -⟩
    · have hlo : optList o2 = optList o := by rw [he2, hl1]
      rcases hd3 with ⟨hnt3, -⟩ | ⟨-, hcase⟩
      · exact absurd (hrid2.trans hteq) hnt3
      · rcases hcase with ⟨-, hm, he3, -⟩ | ⟨-, hnm, hl3, -⟩ | ⟨hup, -⟩ | ⟨hup, -⟩
        · have hmo : Json.str uid ∈ optList o := by rw [← hlo]; exact hm
          have hpos : 0 < countJ (.str uid) (optList o) := (countJ_pos_iff_mem _ _).mpr hmo
          constructor
          · rw [he3, hlo]
            exact hmo
          · rw [he3, hlo]
            omega
        · have hz : countJ (.str uid) (optList o) = 0 := by
            rw [← hlo]
            exact (countJ_eq_zero_iff _ _).mpr hnm
          constructor
          · rw [hl3]
            exact List.mem_append_right _ (List.mem_cons_self _ _)
          · rw [hl3, countJ_append, countJ_single_self, hlo, hz]
            decide
        · cases hup
        · cases hup
    · exact absurd (hr1.trans hteq) hnt1

theorem downEffect_of (uid tid : List Char) (o o1 : Json)
    (y3 : Json × Bool × Option Json) (h : OptionVoteOk o)
    (h1 : initOption o = .ok o1) (h3 : phase3 uid tid false o1 = .ok y3) :
    DownEffect uid o y3.1 := by
  obtain ⟨hwf1, hl1, hr1, -⟩ := initOption_shape o o1 h h1
  rcases y3 with ⟨o3, b3, nm⟩
  obtain ⟨hwf3, hr3, hd3⟩ := phase3_shape uid tid false o1 o3 b3 nm hwf1 h3
  have hrid : optRid o3 = optRid o := by rw [hr3, hr1]
  refine ⟨hrid, ?_, ?_⟩
  · intro x
    rcases hd3 with ⟨-, he3, -⟩ | ⟨-, hcase⟩
    · rw [he3, hl1]
    · rcases hcase with ⟨hup, -⟩ | ⟨hup, -⟩ | ⟨-, hm, hl3, -⟩ | ⟨-, -, he3, -⟩
      · cases hup
      · cases hup
      · rw [hl3, hl1]
        by_cases hx : x = Json.str uid
        · rw [hx]
          rw [← hl1, countJ_eraseFirst_self, hl1]
          omega
        · rw [← hl1, countJ_eraseFirst_ne _ _ hx, hl1]
      · rw [he3, hl1]
  · intro x hx
    rcases hd3 with ⟨-, he3, -⟩ | ⟨-, hcase⟩
    · rw [he3, hl1]
    · rcases hcase with ⟨hup, -⟩ | ⟨hup, -⟩ | ⟨-, hm, hl3, -⟩ | ⟨-, -, he3, -⟩
      · cases hup
      · cases hup
      · rw [hl3, ← hl1, countJ_eraseFirst_ne _ _ hx, hl1]
      · rw [he3, hl1]

theorem occTotal_cons (o : Json) (opts : List Json) (u : List Char) :
    occTotal (o :: opts) u = countJ (.str u) (optList o) + occTotal opts u := by
  simp [occTotal]

theorem countJ_le_occTotal (u : List Char) (opts : List Json) (o : Json) (ho : o ∈ opts) :
    countJ (.str u) (optList o) ≤ occTotal opts u := by
  induction opts with
  | nil => cases ho
  | cons a t ih =>
    rw [occTotal_cons]
    rcases List.mem_cons.mp ho with rfl | h2
    · omega
    · have := ih h2
      omega

theorem optsContaining_le_occTotal (opts : List Json) (u : List Char) :
    optsContaining opts u ≤ occTotal opts u := by
  induction opts with
  | nil => exact Nat.le_refl 0
  | cons a t ih =>
    rw [occTotal_cons]
    unfold optsContaining at ih ⊢
    rw [List.countP_cons]
    by_cases hm : Json.str u ∈ optList a
    · have hpos : 0 < countJ (.str u) (optList a) := (countJ_pos_iff_mem _ _).mpr hm
      have hd : decide (Json.str u ∈ optList a) = true := by simp [hm]
      rw [hd, if_pos rfl]
      omega
    · have hd : decide (Json.str u ∈ optList a) = false := by simp [hm]
      rw [hd, if_neg (by simp : ¬false = true)]
      omega

theorem occTotal_eq_of_forall₂ {uid : List Char} {opts opts3 : List Json}
    (h : List.Forall₂ (fun o o3 => ∀ x : Json, x ≠ .str uid →
      countJ x (optList o3) = countJ x (optList o)) opts opts3) :
    ∀ u, u ≠ uid → occTotal opts3 u = occTotal opts u := by
  induction h with
  | nil => intro u _; rfl
  | @cons o o3 t t3 hh ht ih =>
    intro u hu
    have hne : (Json.str u : Json) ≠ .str uid := fun hh2 => hu (Json.str.inj hh2)
    rw [occTotal_cons, occTotal_cons, hh _ hne, ih u hu]

theorem occTotal_le_of_forall₂ {opts opts3 : List Json}
    (h : List.Forall₂ (fun o o3 => ∀ x : Json,
      countJ x (optList o3) ≤ countJ x (optList o)) opts opts3) :
    ∀ u, occTotal opts3 u ≤ occTotal opts u := by
  induction h with
  | nil => intro u; exact Nat.le_refl 0
  | @cons o o3 t t3 hh ht ih =>
    intro u
    rw [occTotal_cons, occTotal_cons]
    have h1 := hh (.str u)
    have h2 := ih u
    omega

theorem up_occ_bound (uid tid : List Char) :
    ∀ {opts opts3 : List Json}, List.Forall₂ (UpEffect uid tid) opts opts3 →
      occTotal opts uid ≤ 1 →
      occTotal opts3 uid ≤ opts.countP (fun o => decide (optRid o = some (.str tid))) := by
  intro opts opts3 h
  induction h with
  | nil => intro _; exact Nat.le_refl 0
  | @cons o o3 t t3 hh ht ih =>
    intro hocc
    rw [occTotal_cons] at hocc ⊢
    rw [List.countP_cons]
    obtain ⟨hrid, -, hz, htgt⟩ := hh
    have htail := ih (by omega)
    by_cases htg : optRid o = some (.str tid)
    · obtain ⟨-, hmax⟩ := htgt htg
      have hd : decide (optRid o = some (.str tid)) = true := by simp [htg]
      rw [hd, if_pos rfl]
      have hb : countJ (.str uid) (optList o3) ≤ 1 := by
        rw [hmax]
        omega
      omega
    · have h0 := hz htg (by omega)
      have hd : decide (optRid o = some (.str tid)) = false := by simp [htg]
      rw [hd, if_neg (by simp : ¬false = true)]
      omega

theorem up_movement {uid tid : List Char} :
    ∀ {opts opts3 : List Json}, List.Forall₂ (UpEffect uid tid) opts opts3 →
      occTotal opts uid ≤ 1 →
      ∀ o3 ∈ opts3, (optRid o3 = some (.str tid) → Json.str uid ∈ optList o3) ∧
        (optRid o3 ≠ some (.str tid) → Json.str uid ∉ optList o3) := by
  intro opts opts3 h
  induction h with
  | nil =>
    intro _ o3 ho3
    cases ho3
  | @cons o o3 t t3 hh ht ih =>
    intro hocc o3' ho3'
    rw [occTotal_cons] at hocc
    rcases List.mem_cons.mp ho3' with rfl | h2
    · obtain ⟨hrid, -, hz, htgt⟩ := hh
      constructor
      · intro htg
        rw [hrid] at htg
        exact (htgt htg).1
      · intro hnt
        rw [hrid] at hnt
        have h0 := hz hnt (by omega)
        exact (countJ_eq_zero_iff _ _).mp h0
    · exact ih (by omega) o3' h2

/-- C1 (amended): on a well-formed VoteCard (each option an object with a
string `restaurant_id` and an array `vote_user_id_list`) in which every user
identifier occurs at most once across all options' lists counting
multiplicity, and at most one option carries the target restaurant id, any
completed `record_vote` mutation leaves every user identifier in at most
one option's list; for an up-vote, the user ends up in the target option's
list and in no other.  (The original claim, with the weaker precondition
"appears in at most one option's list" and no distinctness assumption on
restaurant ids, is refuted by the counterexample.) -/
theorem record_vote_single_choice
    (kvs kvs' : List (List Char × Json)) (uid tid : List Char) (up : Bool)
    (upd : Bool) (name : Option Json) (opts : List Json)
    (hopts : lookupKey kvs voteOptionsK = some (.arr opts))
    (hwf : ∀ o ∈ opts, OptionVoteOk o)
    (honce : ∀ u : List Char, occTotal opts u ≤ 1)
    (htid : opts.countP (fun o => decide (optRid o = some (.str tid))) ≤ 1)
    (happ : applyVote kvs uid tid up = .ok (kvs', upd, name)) :
    ∃ opts', lookupKey kvs' voteOptionsK = some (.arr opts') ∧
      (∀ u : List Char, optsContaining opts' u ≤ 1) ∧
      (up = true → ∀ o' ∈ opts',
        (optRid o' = some (.str tid) → Json.str uid ∈ optList o') ∧
        (optRid o' ≠ some (.str tid) → Json.str uid ∉ optList o')) := by
  rw [applyVote, hopts] at happ
  simp only [Bind.bind, Except.bind] at happ
  rcases h1 : mapME initOption opts with e1 | xs1
  · simp only [h1] at happ
    exact Except.noConfusion happ
  · simp only [h1] at happ
    have hf1 := (mapME_ok_iff initOption opts xs1).mp h1
    cases up
    · simp only [Bool.false_eq_true, if_false] at happ
      rw [map_fst_map_pair] at happ
      rcases h3 : mapME (phase3 uid tid false) xs1 with e3 | p3
      · simp only [h3] at happ
        exact Except.noConfusion happ
      · simp only [h3, Except.ok.injEq, Prod.mk.injEq] at happ
        rcases happ with ⟨hkvs, -, -⟩
        subst hkvs
        have hf3 := (mapME_ok_iff (phase3 uid tid false) xs1 p3).mp h3
        have hf3' := forall₂_map_right (fun q : Json × Bool × Option Json => q.1) hf3
        have hcomp : List.Forall₂ (fun o o3 => ∃ o1, initOption o = .ok o1 ∧
            ∃ z : Json × Bool × Option Json, phase3 uid tid false o1 = .ok z ∧ z.1 = o3)
            opts (p3.map (fun q => q.1)) :=
          forall₂_comp (fun a b c hab hbc => ⟨b, hab, hbc⟩) hf1 hf3'
        have hde : List.Forall₂ (DownEffect uid) opts (p3.map (fun q => q.1)) := by
          refine forall₂_mono_mem ?_ hcomp hwf
          rintro a b hP ⟨o1, ho1, z, hz, rfl⟩
          exact downEffect_of uid tid a o1 z hP ho1 hz
        refine ⟨p3.map (fun q => q.1), lookupKey_objInsert_self _ _ _, ?_, ?_⟩
        · intro u
          have hle := occTotal_le_of_forall₂ (hde.imp (fun _ _ h => h.2.1)) u
          have hc := optsContaining_le_occTotal (p3.map (fun q => q.1)) u
          have ho := honce u
          omega
        · intro hup
          exact Bool.noConfusion hup
    · simp only [if_true] at happ
      rcases h2 : mapME (phase2 uid tid) xs1 with e2 | p2
      · simp only [h2] at happ
        exact Except.noConfusion happ
      · simp only [h2] at happ
        rcases h3 : mapME (phase3 uid tid true) (p2.map (fun q => q.1)) with e3 | p3
        · simp only [h3] at happ
          exact Except.noConfusion happ
        · simp only [h3, Except.ok.injEq, Prod.mk.injEq] at happ
          rcases happ with ⟨hkvs, -, -⟩
          subst hkvs
          have hf2 := (mapME_ok_iff (phase2 uid tid) xs1 p2).mp h2
          have hf2' := forall₂_map_right (fun q : Json × Bool => q.1) hf2
          have hf3 := (mapME_ok_iff (phase3 uid tid true) (p2.map (fun q => q.1)) p3).mp h3
          have hmid : List.Forall₂ (fun o1 z => ∃ c, (∃ y2 : Json × Bool,
              phase2 uid tid o1 = .ok y2 ∧ y2.1 = c) ∧ phase3 uid tid true c = .ok z)
              xs1 p3 :=
            forall₂_comp (fun a b c hab hbc => ⟨b, hab, hbc⟩) hf2' hf3
          have hmid' := forall₂_map_right (fun q : Json × Bool × Option Json => q.1) hmid
          have hcomp : List.Forall₂ (fun o o3 => ∃ o1, initOption o = .ok o1 ∧
              ∃ z : Json × Bool × Option Json, (∃ c, (∃ y2 : Json × Bool,
                phase2 uid tid o1 = .ok y2 ∧ y2.1 = c) ∧ phase3 uid tid true c = .ok z) ∧
                z.1 = o3) opts (p3.map (fun q => q.1)) :=
            forall₂_comp (fun a b c hab hbc => ⟨b, hab, hbc⟩) hf1 hmid'
          have hue : List.Forall₂ (UpEffect uid tid) opts (p3.map (fun q => q.1)) := by
            refine forall₂_mono_mem ?_ hcomp hwf
            rintro a b hP ⟨o1, ho1, z, ⟨c, ⟨y2, hy2, rfl⟩, hz⟩, rfl⟩
            exact upEffect_of uid tid a o1 y2 z hP ho1 hy2 hz
          refine ⟨p3.map (fun q => q.1), lookupKey_objInsert_self _ _ _, ?_, ?_⟩
          · intro u
            by_cases hu : u = uid
            · rw [hu]
              have hb := up_occ_bound uid tid hue (honce uid)
              have hc := optsContaining_le_occTotal (p3.map (fun q => q.1)) uid
              omega
            · have heq := occTotal_eq_of_forall₂ (hue.imp (fun _ _ h => h.2.1)) u hu
              have hc := optsContaining_le_occTotal (p3.map (fun q => q.1)) u
              have ho := honce u
              omega
          · intro _ o3 ho3
            exact up_movement hue (honce uid) o3 ho3

/-- Witness for C1 at a concrete card: after user u up-votes option B, every
user identifier sits in at most one option's list, and u sits exactly on B. -/
theorem record_vote_single_choice_witness :
    ∃ opts', lookupKey c1kvs' voteOptionsK = some (.arr opts') ∧
      (∀ u : List Char, optsContaining opts' u ≤ 1) ∧
      (true = true → ∀ o' ∈ opts',
        (optRid o' = some (.str (s2c "B")) → Json.str (s2c "u") ∈ optList o') ∧
        (optRid o' ≠ some (.str (s2c "B")) → Json.str (s2c "u") ∉ optList o')) :=
  record_vote_single_choice c1kvs c1kvs' (s2c "u") (s2c "B") true true
    (some (.str (s2c "this restaurant"))) c1opts (by decide)
    (by
      intro o ho
      rcases List.mem_cons.mp ho with rfl | ho
      · exact ⟨_, s2c "A", [], rfl, by decide, by decide⟩
      rcases List.mem_cons.mp ho with rfl | ho
      · exact ⟨_, s2c "B", [], rfl, by decide, by decide⟩
      · cases ho)
    (fun u => by
      have h0 : occTotal c1opts u = 0 := rfl
      omega)
    (by decide) (by decide)

/-- Counterexample to C1 as stated.  Two concrete cards satisfy the claim's
own precondition — every user identifier appears in at most one option's
`vote_user_id_list` — yet after one up-vote the user appears in two options'
lists.  First card: the user occurs twice inside option A's list (one list,
so at most one option), and up-voting B removes only one occurrence from A
while appending to B.  Second card: two options share the target
restaurant id and the up-vote appends the user to both. -/
theorem record_vote_single_choice_cex :
    (optsContaining
        [.obj [(ridK, .str (s2c "A")),
            (voteListK, .arr [.str (s2c "u"), .str (s2c "u")]), (voteNumK, .int 2)],
          .obj [(ridK, .str (s2c "B")), (voteListK, .arr []), (voteNumK, .int 0)]]
        (s2c "u") = 1 ∧
      applyVote [(voteOptionsK, .arr
          [.obj [(ridK, .str (s2c "A")),
              (voteListK, .arr [.str (s2c "u"), .str (s2c "u")]), (voteNumK, .int 2)],
            .obj [(ridK, .str (s2c "B")), (voteListK, .arr []), (voteNumK, .int 0)]])]
        (s2c "u") (s2c "B") true =
        .ok ([(voteOptionsK, .arr
          [.obj [(ridK, .str (s2c "A")),
              (voteListK, .arr [.str (s2c "u")]), (voteNumK, .int 1)],
            .obj [(ridK, .str (s2c "B")),
              (voteListK, .arr [.str (s2c "u")]), (voteNumK, .int 1)]])],
          true, some (.str (s2c "this restaurant"))) ∧
      optsContaining
        [.obj [(ridK, .str (s2c "A")),
            (voteListK, .arr [.str (s2c "u")]), (voteNumK, .int 1)],
          .obj [(ridK, .str (s2c "B")),
            (voteListK, .arr [.str (s2c "u")]), (voteNumK, .int 1)]] (s2c "u") = 2) ∧
    (optsContaining
        [.obj [(ridK, .str (s2c "X")), (voteListK, .arr []), (voteNumK, .int 0)],
          .obj [(ridK, .str (s2c "X")), (voteListK, .arr []), (voteNumK, .int 0)]]
        (s2c "u") = 0 ∧
      applyVote [(voteOptionsK, .arr
          [.obj [(ridK, .str (s2c "X")), (voteListK, .arr []), (voteNumK, .int 0)],
            .obj [(ridK, .str (s2c "X")), (voteListK, .arr []), (voteNumK, .int 0)]])]
        (s2c "u") (s2c "X") true =
        .ok ([(voteOptionsK, .arr
          [.obj [(ridK, .str (s2c "X")),
              (voteListK, .arr [.str (s2c "u")]), (voteNumK, .int 1)],
            .obj [(ridK, .str (s2c "X")),
              (voteListK, .arr [.str (s2c "u")]), (voteNumK, .int 1)]])],
          true, some (.str (s2c "this restaurant"))) ∧
      optsContaining
        [.obj [(ridK, .str (s2c "X")),
            (voteListK, .arr [.str (s2c "u")]), (voteNumK, .int 1)],
          .obj [(ridK, .str (s2c "X")),
            (voteListK, .arr [.str (s2c "u")]), (voteNumK, .int 1)]] (s2c "u") = 2) := by
  decide

/-- Witness for C2 at a concrete card: the spec's "switching" scenario. -/
theorem record_vote_count_consistency_witness :
    ∃ opts', lookupKey c2kvs' voteOptionsK = some (.arr opts') ∧
      (∀ o' ∈ opts', OptionCountOk o') ∧
      (∀ o' ∈ opts', ∀ os nv n, o' = Json.obj os → lookupKey os voteNumK = some nv →
        asNum nv = .ok n → 0 ≤ n) :=
  record_vote_count_consistency c2kvs c2kvs' (s2c "u") (s2c "B") true true
    (some (.str (s2c "this restaurant")))
    [.obj [(ridK, .str (s2c "A")), (voteListK, .arr [.str (s2c "u")]), (voteNumK, .int 1)],
      .obj [(ridK, .str (s2c "B")), (voteListK, .arr []), (voteNumK, .int 0)]]
    (by decide)
    (by
      intro o ho
      rcases List.mem_cons.mp ho with rfl | ho
      · exact ⟨_, [.str (s2c "u")], .int 1, rfl, by decide, by decide, by decide⟩
      rcases List.mem_cons.mp ho with rfl | ho
      · exact ⟨_, [], .int 0, rfl, by decide, by decide, by decide⟩
      · cases ho)
    (by decide)

/-! ## C8 and C3: idempotent no-ops and the missing-option behaviour -/

theorem mapME_ok_exists_rel {α β : Type} (f : α → Except VErr β) (R : α → β → Prop) :
    ∀ xs : List α, (∀ x ∈ xs, ∃ y, f x = .ok y ∧ R x y) →
      ∃ ys, mapME f xs = .ok ys ∧ List.Forall₂ R xs ys := by
  intro xs
  induction xs with
  | nil => intro _; exact ⟨[], rfl, .nil⟩
  | cons x t ih =>
    intro h
    rcases h x (List.mem_cons_self _ _) with ⟨y, hy, hR⟩
    rcases ih (fun a ha => h a (List.mem_cons_of_mem _ ha)) with ⟨ys, hys, hF⟩
    exact ⟨y :: ys, by simp [mapME, hy, hys, Bind.bind, Except.bind], .cons hR hF⟩

theorem mapME_ok_of_pointwise {α β : Type} (f : α → Except VErr β) (g : α → β) :
    ∀ xs : List α, (∀ x ∈ xs, f x = .ok (g x)) → mapME f xs = .ok (xs.map g) := by
  intro xs
  induction xs with
  | nil => intro _; rfl
  | cons x t ih =>
    intro h
    have hx := h x (List.mem_cons_self _ _)
    have ht := ih (fun a ha => h a (List.mem_cons_of_mem _ ha))
    simp [mapME, hx, ht, Bind.bind, Except.bind]

theorem any_map_false {α : Type} (xs : List α) :
    (xs.map (fun _ => false)).any id = false := by
  induction xs with
  | nil => rfl
  | cons a t ih => simp [ih]

theorem any_flags_false {xs1 : List Json} {p3 : List (Json × Bool × Option Json)}
    (h : List.Forall₂ (fun x y => y.1 = x ∧ y.2.1 = false) xs1 p3) :
    (p3.map (fun q => q.2.1)).any id = false := by
  induction h with
  | nil => rfl
  | @cons x y t t3 hh ht ih => simp [hh.2, ih]

theorem map_fst_of_flags {xs1 : List Json} {p3 : List (Json × Bool × Option Json)}
    (h : List.Forall₂ (fun x y => y.1 = x ∧ y.2.1 = false) xs1 p3) :
    p3.map (fun q => q.1) = xs1 := by
  induction h with
  | nil => rfl
  | @cons x y t t3 hh ht ih => simp [hh.1, ih]

theorem initOption_ok_ex (o : Json) (h : OptionVoteOk o) :
    ∃ o1, initOption o = .ok o1 ∧ OptionVoteOk o1 ∧ optList o1 = optList o ∧
      optRid o1 = optRid o := by
  rcases h with ⟨os, r, l, ho, hr, hl⟩
  have hok : ∃ o1, initOption o = .ok o1 := by
    rw [ho]
    simp [initOption, hl]
  rcases hok with ⟨o1, ho1⟩
  obtain ⟨a, b, c, -⟩ := initOption_shape o o1 ⟨os, r, l, ho, hr, hl⟩ ho1
  exact ⟨o1, ho1, a, b, c⟩

theorem phase2_noop (uid tid : List Char) (o : Json) (h : OptionVoteOk o)
    (hc : optRid o = some (.str tid) ∨ Json.str uid ∉ optList o) :
    phase2 uid tid o = .ok (o, false) := by
  rcases h with ⟨os, r, l, rfl, hr, hl⟩
  by_cases ht : r = tid
  · simp [phase2, getKey, hr, ht, Bind.bind, Except.bind]
  · have htne : ¬(Json.str r = Json.str tid) := fun hh => ht (Json.str.inj hh)
    have hnm : Json.str uid ∉ l := by
      rcases hc with hc | hc
      · rw [show optRid (.obj os) = some (.str r) from by simp [optRid, hr]] at hc
        injection hc with hc2
        exact absurd (Json.str.inj hc2) ht
      · rw [optList_obj _ _ hl] at hc
        exact hc
    simp [phase2, getKey, hr, htne, hl, pyContains, hnm, Bind.bind, Except.bind]

theorem phase3_nontarget (uid tid : List Char) (up : Bool) (o : Json) (h : OptionVoteOk o)
    (hnt : optRid o ≠ some (.str tid)) : phase3 uid tid up o = .ok (o, false, none) := by
  rcases h with ⟨os, r, l, rfl, hr, hl⟩
  have hrne : ¬(Json.str r = Json.str tid) := by
    intro hh
    apply hnt
    rw [show optRid (.obj os) = some (.str r) from by simp [optRid, hr], hh]
  simp [phase3, getKey, hr, hrne, Bind.bind, Except.bind]

theorem phase3_noop (uid tid : List Char) (up : Bool) (o : Json) (h : OptionVoteOk o)
    (hc : optRid o = some (.str tid) →
      (up = true → Json.str uid ∈ optList o) ∧ (up = false → Json.str uid ∉ optList o)) :
    ∃ nm, phase3 uid tid up o = .ok (o, false, nm) := by
  rcases h with ⟨os, r, l, rfl, hr, hl⟩
  have hrid : optRid (.obj os) = some (.str r) := by simp [optRid, hr]
  have hlst : optList (.obj os) = l := optList_obj _ _ hl
  by_cases ht : r = tid
  · have hc2 := hc (by rw [hrid, ht])
    cases up
    · have hnm : Json.str uid ∉ l := by
        rw [← hlst]
        exact hc2.2 rfl
      exact ⟨some ((lookupKey os rNameK).getD (.str (s2c "this restaurant"))),
        by simp [phase3, getKey, hr, ht, hl, pyContains, hnm, Bind.bind, Except.bind]⟩
    · have hm : Json.str uid ∈ l := by
        rw [← hlst]
        exact hc2.1 rfl
      exact ⟨some ((lookupKey os rNameK).getD (.str (s2c "this restaurant"))),
        by simp [phase3, getKey, hr, ht, hl, pyContains, hm, Bind.bind, Except.bind]⟩
  · have htne : ¬(Json.str r = Json.str tid) := fun hh => ht (Json.str.inj hh)
    exact ⟨none, by simp [phase3, getKey, hr, htne, Bind.bind, Except.bind]⟩

theorem optionFullOk_vote (o : Json) (h : OptionFullOk o) : OptionVoteOk o := by
  rcases h with ⟨os, r, l, nv, n, rfl, hr, hl, -, -⟩
  exact ⟨os, r, l, rfl, hr, hl⟩

theorem phase2_ok_ex (uid tid : List Char) (o : Json) (h : OptionFullOk o) :
    ∃ y : Json × Bool, phase2 uid tid o = .ok y := by
  rcases h with ⟨os, r, l, nv, n, rfl, hr, hl, hn, ha⟩
  by_cases ht : r = tid
  · exact ⟨(.obj os, false), by simp [phase2, getKey, hr, ht, Bind.bind, Except.bind]⟩
  · have htne : ¬(Json.str r = Json.str tid) := fun hh => ht (Json.str.inj hh)
    by_cases hm : Json.str uid ∈ l
    · exact ⟨(.obj (objInsert (objInsert os voteListK (.arr (eraseFirst (.str uid) l)))
        voteNumK (.int (max 0 (n - 1)))), true),
        by simp [phase2, getKey, hr, htne, hl, pyContains, hm, listRemove, hn, ha,
          Bind.bind, Except.bind]⟩
    · exact ⟨(.obj os, false),
        by simp [phase2, getKey, hr, htne, hl, pyContains, hm, Bind.bind, Except.bind]⟩

theorem lastSome_acc_none : ∀ (l : List (Option Json)) (acc : Option Json),
    (∀ x ∈ l, x = none) → List.foldl (fun a x => if x.isSome then x else a) acc l = acc := by
  intro l
  induction l with
  | nil => intro acc _; rfl
  | cons x t ih =>
    intro acc h
    have hx := h x (List.mem_cons_self _ _)
    subst hx
    simp only [List.foldl_cons, Option.isSome_none, Bool.false_eq_true, if_false]
    exact ih acc (fun a ha => h a (List.mem_cons_of_mem _ ha))

theorem lastSome_none (l : List (Option Json)) (h : ∀ x ∈ l, x = none) :
    lastSome l = none :=
  lastSome_acc_none l none h

theorem map_snd_map_pair {α : Type} (xs : List α) :
    (List.map (fun o : α => (o, false)) xs).map (fun q : α × Bool => q.2) =
      xs.map (fun _ => false) := by
  induction xs with
  | nil => rfl
  | cons a t ih => simp [ih]

/-- C8 (amended): on a well-formed card, an up-vote by a user whose vote
already sits on the target option — and on no other option — is a no-op:
every list and count is unchanged, nothing is written back, and the call
returns `None`; a down-vote of an option the user has not voted for is
likewise a no-op.  (The original claim, which does not exclude the user
also sitting on another option's list, is refuted by the counterexample:
there the up-vote removes that other vote and writes the card back.) -/
theorem record_vote_idempotent
    (store : List ChatRow) (now sid uid mid tid content : List Char) (up : Bool)
    (kvs : List (List Char × Json)) (opts : List Json)
    (hf : findContent store sid mid = some content)
    (hp : parseContent content = .ok (.obj kvs))
    (hopts : lookupKey kvs voteOptionsK = some (.arr opts))
    (hwf : ∀ o ∈ opts, OptionVoteOk o) :
    (up = true →
      (∀ o ∈ opts, optRid o = some (.str tid) → Json.str uid ∈ optList o) →
      (∀ o ∈ opts, optRid o ≠ some (.str tid) → Json.str uid ∉ optList o) →
      record_vote store now sid uid mid tid up = (store, .ok none)) ∧
    (up = false →
      (∀ o ∈ opts, optRid o = some (.str tid) → Json.str uid ∉ optList o) →
      record_vote store now sid uid mid tid up = (store, .ok none)) := by
  constructor
  · rintro rfl hin hout
    obtain ⟨xs1, hxs1, hF1⟩ := mapME_ok_exists_rel initOption
      (fun o o1 => OptionVoteOk o1 ∧ optList o1 = optList o ∧ optRid o1 = optRid o) opts
      (fun o ho => by
        obtain ⟨o1, h1, h2, h3, h4⟩ := initOption_ok_ex o (hwf o ho)
        exact ⟨o1, h1, h2, h3, h4⟩)
    have hx1 : ∀ o1 ∈ xs1, OptionVoteOk o1 ∧
        (optRid o1 = some (.str tid) → Json.str uid ∈ optList o1) ∧
        (optRid o1 ≠ some (.str tid) → Json.str uid ∉ optList o1) := by
      have hPo : ∀ o ∈ opts, OptionVoteOk o ∧
          (optRid o = some (.str tid) → Json.str uid ∈ optList o) ∧
          (optRid o ≠ some (.str tid) → Json.str uid ∉ optList o) :=
        fun o ho => ⟨hwf o ho, hin o ho, hout o ho⟩
      refine forall₂_transfer ?_ hF1 hPo
      rintro o o1 ⟨hwfo, hino, houto⟩ ⟨hQ1, hQ2, hQ3⟩
      refine ⟨hQ1, ?_, ?_⟩
      · intro ht
        rw [hQ2]
        exact hino (by rw [← hQ3]; exact ht)
      · intro ht
        rw [hQ2]
        exact houto (by rw [← hQ3]; exact ht)
    have hp2 : mapME (phase2 uid tid) xs1 = .ok (xs1.map (fun o1 => (o1, false))) :=
      mapME_ok_of_pointwise _ _ xs1 (fun o1 ho1 => by
        obtain ⟨hwf1, hin1, hout1⟩ := hx1 o1 ho1
        refine phase2_noop uid tid o1 hwf1 ?_
        by_cases ht : optRid o1 = some (.str tid)
        · exact Or.inl ht
        · exact Or.inr (hout1 ht))
    obtain ⟨p3, hp3, hF3⟩ := mapME_ok_exists_rel (phase3 uid tid true)
      (fun x y => y.1 = x ∧ y.2.1 = false) xs1
      (fun o1 ho1 => by
        obtain ⟨hwf1, hin1, hout1⟩ := hx1 o1 ho1
        obtain ⟨nm, hnm⟩ := phase3_noop uid tid true o1 hwf1
          (fun ht => ⟨fun _ => hin1 ht, fun hfalse => Bool.noConfusion hfalse⟩)
        exact ⟨(o1, false, nm), hnm, rfl, rfl⟩)
    have happ : applyVote kvs uid tid true =
        .ok (objInsert kvs voteOptionsK (.arr (p3.map (fun q => q.1))),
          false, lastSome (p3.map (fun q => q.2.2))) := by
      rw [applyVote, hopts]
      simp only [hxs1, Bind.bind, Except.bind, if_true, hp2]
      rw [map_fst_map_pair]
      simp only [hp3, map_snd_map_pair, any_map_false, any_flags_false hF3,
        Bool.or_false]
    simp [record_vote, hf, hp, happ]
  · rintro rfl hnin
    obtain ⟨xs1, hxs1, hF1⟩ := mapME_ok_exists_rel initOption
      (fun o o1 => OptionVoteOk o1 ∧ optList o1 = optList o ∧ optRid o1 = optRid o) opts
      (fun o ho => by
        obtain ⟨o1, h1, h2, h3, h4⟩ := initOption_ok_ex o (hwf o ho)
        exact ⟨o1, h1, h2, h3, h4⟩)
    have hx1 : ∀ o1 ∈ xs1, OptionVoteOk o1 ∧
        (optRid o1 = some (.str tid) → Json.str uid ∉ optList o1) := by
      have hPo : ∀ o ∈ opts, OptionVoteOk o ∧
          (optRid o = some (.str tid) → Json.str uid ∉ optList o) :=
        fun o ho => ⟨hwf o ho, hnin o ho⟩
      refine forall₂_transfer ?_ hF1 hPo
      rintro o o1 ⟨hwfo, hnino⟩ ⟨hQ1, hQ2, hQ3⟩
      refine ⟨hQ1, ?_⟩
      intro ht
      rw [hQ2]
      exact hnino (by rw [← hQ3]; exact ht)
    obtain ⟨p3, hp3, hF3⟩ := mapME_ok_exists_rel (phase3 uid tid false)
      (fun x y => y.1 = x ∧ y.2.1 = false) xs1
      (fun o1 ho1 => by
        obtain ⟨hwf1, hnim⟩ := hx1 o1 ho1
        obtain ⟨nm, hnm⟩ := phase3_noop uid tid false o1 hwf1
          (fun ht => ⟨fun htrue => Bool.noConfusion htrue, fun _ => hnim ht⟩)
        exact ⟨(o1, false, nm), hnm, rfl, rfl⟩)
    have happ : applyVote kvs uid tid false =
        .ok (objInsert kvs voteOptionsK (.arr (p3.map (fun q => q.1))),
          false, lastSome (p3.map (fun q => q.2.2))) := by
      rw [applyVote, hopts]
      simp only [hxs1, Bind.bind, Except.bind, Bool.false_eq_true, if_false]
      rw [map_fst_map_pair]
      simp only [hp3, map_snd_map_pair, any_map_false, any_flags_false hF3,
        Bool.or_false]
    simp [record_vote, hf, hp, happ]

/-- Witness for C8: u already voted for A, so up-voting A and down-voting B
are both no-ops returning None with the store untouched. -/
theorem record_vote_idempotent_witness :
    record_vote [c8row] (s2c "t1") (s2c "s1") (s2c "u") (s2c "m1") (s2c "A") true =
      ([c8row], .ok none) ∧
    record_vote [c8row] (s2c "t1") (s2c "s1") (s2c "u") (s2c "m1") (s2c "B") false =
      ([c8row], .ok none) :=
  ⟨(record_vote_idempotent [c8row] (s2c "t1") (s2c "s1") (s2c "u") (s2c "m1") (s2c "A")
      c8content true c8kvs c8opts (by decide) (by decide) (by decide)
      (by
        intro o ho
        rcases List.mem_cons.mp ho with rfl | ho
        · exact ⟨_, s2c "A", [.str (s2c "u")], rfl, by decide, by decide⟩
        rcases List.mem_cons.mp ho with rfl | ho
        · exact ⟨_, s2c "B", [], rfl, by decide, by decide⟩
        · cases ho)).1 rfl (by decide) (by decide),
    (record_vote_idempotent [c8row] (s2c "t1") (s2c "s1") (s2c "u") (s2c "m1") (s2c "B")
      c8content false c8kvs c8opts (by decide) (by decide) (by decide)
      (by
        intro o ho
        rcases List.mem_cons.mp ho with rfl | ho
        · exact ⟨_, s2c "A", [.str (s2c "u")], rfl, by decide, by decide⟩
        rcases List.mem_cons.mp ho with rfl | ho
        · exact ⟨_, s2c "B", [], rfl, by decide, by decide⟩
        · cases ho)).2 rfl (by decide)⟩

/-- Counterexample to C8 as stated: up-voting option A, whose list already
contains the user, is not a no-op when the user's vote also sits on B —
the code removes the B vote, writes the card back and returns the
restaurant name instead of None. -/
theorem record_vote_idempotent_cex :
    (record_vote [c8cexRow] (s2c "t1") (s2c "s1") (s2c "u") (s2c "m1") (s2c "A") true).2 =
      .ok (some (.str (s2c "this restaurant"))) ∧
    (record_vote [c8cexRow] (s2c "t1") (s2c "s1") (s2c "u") (s2c "m1") (s2c "A") true).1 ≠
      [c8cexRow] := by
  decide

theorem map_proj1_triple {α : Type} (xs : List α) :
    ((xs.map (fun c => (c, false, (none : Option Json)))).map
      (fun q : α × Bool × Option Json => q.1)) = xs := by
  induction xs with
  | nil => rfl
  | cons a t ih => simp [ih]

theorem map_proj21_triple {α : Type} (xs : List α) :
    ((xs.map (fun c => (c, false, (none : Option Json)))).map
      (fun q : α × Bool × Option Json => q.2.1)) = xs.map (fun _ => false) := by
  induction xs with
  | nil => rfl
  | cons a t ih => simp [ih]

theorem map_proj22_triple {α : Type} (xs : List α) :
    ((xs.map (fun c => (c, false, (none : Option Json)))).map
      (fun q : α × Bool × Option Json => q.2.2)) = xs.map (fun _ => (none : Option Json)) := by
  induction xs with
  | nil => rfl
  | cons a t ih => simp [ih]

theorem lastSome_map_none {α : Type} (xs : List α) :
    lastSome (xs.map (fun _ => (none : Option Json))) = none := by
  refine lastSome_none _ ?_
  intro x hx
  rcases List.mem_map.mp hx with ⟨a, -, rfl⟩
  rfl

theorem initOption_full_ex (o : Json) (h : OptionFullOk o) :
    initOption o = .ok o := by
  rcases h with ⟨os, r, l, nv, n, rfl, hr, hl, hn, ha⟩
  simp [initOption, hl, hn]

/-- C3 (amended): when no option of the stored card carries the requested
restaurant id, `record_vote` raises nothing and returns `None`.  For a
down-vote, or for an up-vote by a user whose vote sits on no option, the
store is unchanged; an up-vote by a user whose vote sits on another option
still removes that vote (and persists the removal) before discovering the
target is absent — the original claim of a NotFoundError is refuted by the
counterexample. -/
theorem record_vote_missing_option
    (store : List ChatRow) (now sid uid mid tid content : List Char) (up : Bool)
    (kvs : List (List Char × Json)) (opts : List Json)
    (hf : findContent store sid mid = some content)
    (hp : parseContent content = .ok (.obj kvs))
    (hopts : lookupKey kvs voteOptionsK = some (.arr opts))
    (hwf : ∀ o ∈ opts, OptionFullOk o)
    (hmiss : ∀ o ∈ opts, optRid o ≠ some (.str tid)) :
    (record_vote store now sid uid mid tid up).2 = .ok none ∧
    (up = false → record_vote store now sid uid mid tid up = (store, .ok none)) ∧
    ((∀ o ∈ opts, Json.str uid ∉ optList o) →
      record_vote store now sid uid mid tid up = (store, .ok none)) := by
  have hinit : mapME initOption opts = .ok opts :=
    mapME_id_of _ opts (fun o ho => initOption_full_ex o (hwf o ho))
  cases up
  · -- down-vote: every option is a non-target no-op
    have hp3 : mapME (phase3 uid tid false) opts =
        .ok (opts.map (fun c => (c, false, none))) :=
      mapME_ok_of_pointwise _ _ opts (fun o ho =>
        phase3_nontarget uid tid false o (optionFullOk_vote o (hwf o ho)) (hmiss o ho))
    have happ : applyVote kvs uid tid false =
        .ok (objInsert kvs voteOptionsK (.arr opts), false, none) := by
      rw [applyVote, hopts]
      simp only [hinit, Bind.bind, Except.bind, Bool.false_eq_true, if_false]
      rw [map_fst_map_pair]
      simp only [hp3, map_snd_map_pair, any_map_false, map_proj1_triple,
        map_proj21_triple, map_proj22_triple, lastSome_map_none, Bool.or_false]
    have hrv : record_vote store now sid uid mid tid false = (store, .ok none) := by
      simp [record_vote, hf, hp, happ]
    exact ⟨by rw [hrv], fun _ => hrv, fun _ => hrv⟩
  · -- up-vote: the removal loop may fire, the target loop finds nothing
    obtain ⟨p2, hxs2, hF2⟩ := mapME_ok_exists_rel (phase2 uid tid)
      (fun o y => OptionVoteOk y.1 ∧ optRid y.1 = optRid o) opts
      (fun o ho => by
        obtain ⟨⟨o2, b2⟩, hy⟩ := phase2_ok_ex uid tid o (hwf o ho)
        obtain ⟨ha, hb, -⟩ :=
          phase2_shape uid tid o o2 b2 (optionFullOk_vote o (hwf o ho)) hy
        exact ⟨(o2, b2), hy, ha, hb⟩)
    have hmid : ∀ y ∈ p2, OptionVoteOk y.1 ∧ optRid y.1 ≠ some (.str tid) := by
      have hPo : ∀ o ∈ opts, OptionFullOk o ∧ optRid o ≠ some (.str tid) :=
        fun o ho => ⟨hwf o ho, hmiss o ho⟩
      refine forall₂_transfer ?_ hF2 hPo
      rintro o y ⟨-, hP2⟩ ⟨hQ1, hQ2⟩
      exact ⟨hQ1, by rw [hQ2]; exact hP2⟩
    have hc2 : ∀ c ∈ p2.map (fun q => q.1), OptionVoteOk c ∧
        optRid c ≠ some (.str tid) := by
      intro c hc
      rcases List.mem_map.mp hc with ⟨y, hy, rfl⟩
      exact hmid y hy
    have hp3 : mapME (phase3 uid tid true) (p2.map (fun q => q.1)) =
        .ok ((p2.map (fun q => q.1)).map (fun c => (c, false, none))) :=
      mapME_ok_of_pointwise _ _ _ (fun c hcm =>
        phase3_nontarget uid tid true c (hc2 c hcm).1 (hc2 c hcm).2)
    have happ : applyVote kvs uid tid true =
        .ok (objInsert kvs voteOptionsK (.arr (p2.map (fun q => q.1))),
          (p2.map (fun q => q.2)).any id, none) := by
      rw [applyVote, hopts]
      simp only [hinit, Bind.bind, Except.bind, if_true, hxs2, hp3,
        map_proj1_triple, map_proj21_triple, map_proj22_triple,
        lastSome_map_none, any_map_false, Bool.or_false]
    refine ⟨?_, fun h => Bool.noConfusion h, ?_⟩
    · cases hupd : (p2.map (fun q => q.2)).any id <;>
        simp [record_vote, hf, hp, happ, hupd]
    · intro hnone
      have hp2noop : mapME (phase2 uid tid) opts =
          .ok (opts.map (fun o => (o, false))) :=
        mapME_ok_of_pointwise _ _ opts (fun o ho =>
          phase2_noop uid tid o (optionFullOk_vote o (hwf o ho))
            (Or.inr (hnone o ho)))
      have hp2eq : p2 = opts.map (fun o => (o, false)) := by
        have := hxs2.symm.trans hp2noop
        exact Except.ok.inj this
      have hflags : (p2.map (fun q => q.2)).any id = false := by
        rw [hp2eq, map_snd_map_pair, any_map_false]
      simp [record_vote, hf, hp, happ, hflags]

/-- Witness for C3: down-voting a missing option id Z returns None and
leaves the store untouched. -/
theorem record_vote_missing_option_witness :
    record_vote [c8row] (s2c "t1") (s2c "s1") (s2c "u") (s2c "m1") (s2c "Z") false =
      ([c8row], .ok none) :=
  (record_vote_missing_option [c8row] (s2c "t1") (s2c "s1") (s2c "u") (s2c "m1")
    (s2c "Z") c8content false c8kvs c8opts (by decide) (by decide) (by decide)
    (by
      intro o ho
      rcases List.mem_cons.mp ho with rfl | ho
      · exact ⟨_, s2c "A", [.str (s2c "u")], .int 1, 1, rfl, by decide, by decide,
          by decide, by decide⟩
      rcases List.mem_cons.mp ho with rfl | ho
      · exact ⟨_, s2c "B", [], .int 0, 0, rfl, by decide, by decide, by decide, by decide⟩
      · cases ho)
    (by decide)).2.1 rfl

/-- Counterexample to C3 as stated: voting up for the absent option id Z on
a card where u's vote sits on A does not raise any error — the call returns
`None` (no NotFoundError), and it even persists a change (u's vote on A is
removed and written back). -/
theorem record_vote_missing_option_cex :
    (record_vote [c8row] (s2c "t1") (s2c "s1") (s2c "u") (s2c "m1") (s2c "Z") true).2 =
      .ok none ∧
    (record_vote [c8row] (s2c "t1") (s2c "s1") (s2c "u") (s2c "m1") (s2c "Z") true).1 ≠
      [c8row] := by
  decide

/-! ## Serialization round-trip: characters and string bodies -/

theorem charValidNat (c : Char) :
    c.toNat < 0xd800 ∨ (0xdfff < c.toNat ∧ c.toNat < 0x110000) := by
  rcases c.valid with h | ⟨h1, h2⟩
  · exact Or.inl (UInt32.toNat_lt_of_lt (by decide) h)
  · exact Or.inr ⟨UInt32.lt_toNat_of_lt (by decide) h1, UInt32.toNat_lt_of_lt (by decide) h2⟩

theorem lstrip_not_ws (c : Char) (t : List Char) (h : isWs c = false) :
    lstrip (c :: t) = c :: t := by
  simp [lstrip, List.dropWhile, h]

theorem lstrip_ws_cons (c : Char) (t : List Char) (h : isWs c = true) :
    lstrip (c :: t) = lstrip t := by
  simp [lstrip, List.dropWhile, h]

theorem fromHexDigit_hexChar : ∀ d, d < 16 → fromHexDigit (hexChar d) = some d := by decide

theorem fromHex4_hex4 (n : Nat) (hn : n < 0x10000) :
    fromHex4 (hexChar (n / 4096 % 16)) (hexChar (n / 256 % 16)) (hexChar (n / 16 % 16))
      (hexChar (n % 16)) = some n := by
  have h1 := fromHexDigit_hexChar (n / 4096 % 16) (Nat.mod_lt _ (by decide))
  have h2 := fromHexDigit_hexChar (n / 256 % 16) (Nat.mod_lt _ (by decide))
  have h3 := fromHexDigit_hexChar (n / 16 % 16) (Nat.mod_lt _ (by decide))
  have h4 := fromHexDigit_hexChar (n % 16) (Nat.mod_lt _ (by decide))
  simp [fromHex4, h1, h2, h3, h4]
  omega

theorem decode_surrogate_pair (f : Nat) (a b c2 d e2 g h2 i2 : Char) (t : List Char) (n m : Nat)
    (hx : fromHex4 a b c2 d = some n) (hy : fromHex4 e2 g h2 i2 = some m)
    (hn1 : ¬ (n < 0xd800 ∨ 0xe000 ≤ n)) (hn2 : n < 0xdc00)
    (hm1 : 0xdc00 ≤ m ∧ m < 0xe000) :
    decodeStrF (f + 1)
        ('\\' :: 'u' :: a :: b :: c2 :: d :: '\\' :: 'u' :: e2 :: g :: h2 :: i2 :: t) =
      consStr (Char.ofNat (0x10000 + (n - 0xd800) * 1024 + (m - 0xdc00))) (decodeStrF f t) := by
  rw [decodeStrF.eq_def]
  simp [hx, hy, hn1, hn2, hm1]

theorem decodeStrF_encodeChar (f : Nat) (c : Char) (t : List Char) :
    decodeStrF (f + 1) (encodeChar c ++ t) = consStr c (decodeStrF f t) := by
  by_cases h1 : c = '\x22'
  · subst h1
    rw [(by decide : encodeChar '\x22' = ['\\', '\x22'])]
    rw [decodeStrF.eq_def]
    simp [simpleEsc]
  by_cases h2 : c = '\\'
  · subst h2
    rw [(by decide : encodeChar '\\' = ['\\', '\\'])]
    rw [decodeStrF.eq_def]
    simp [simpleEsc]
  by_cases h3 : c = '\n'
  · subst h3
    rw [(by decide : encodeChar '\n' = ['\\', 'n'])]
    rw [decodeStrF.eq_def]
    simp [simpleEsc]
  by_cases h4 : c = '\r'
  · subst h4
    rw [(by decide : encodeChar '\r' = ['\\', 'r'])]
    rw [decodeStrF.eq_def]
    simp [simpleEsc]
  by_cases h5 : c = '\t'
  · subst h5
    rw [(by decide : encodeChar '\t' = ['\\', 't'])]
    rw [decodeStrF.eq_def]
    simp [simpleEsc]
  by_cases h6 : c = '\x08'
  · subst h6
    rw [(by decide : encodeChar '\x08' = ['\\', 'b'])]
    rw [decodeStrF.eq_def]
    simp [simpleEsc]
  by_cases h7 : c = '\x0c'
  · subst h7
    rw [(by decide : encodeChar '\x0c' = ['\\', 'f'])]
    rw [decodeStrF.eq_def]
    simp [simpleEsc]
  by_cases h8 : 0x20 ≤ c.toNat ∧ c.toNat < 0x7f
  · have he : encodeChar c = [c] := by
      rw [encodeChar, if_neg h1, if_neg h2, if_neg h3, if_neg h4, if_neg h5, if_neg h6,
        if_neg h7, if_pos h8]
    rw [he, List.singleton_append, decodeStrF.eq_def]
    have hc1 : ¬ c.toNat < 0x20 := by omega
    simp [h1, h2, hc1]
  by_cases h9 : c.toNat < 0x10000
  · have he : encodeChar c = '\\' :: 'u' :: hex4 c.toNat := by
      rw [encodeChar, if_neg h1, if_neg h2, if_neg h3, if_neg h4, if_neg h5, if_neg h6,
        if_neg h7, if_neg h8, if_pos h9]
    have hx := fromHex4_hex4 c.toNat h9
    have hcond : c.toNat < 0xd800 ∨ 0xe000 ≤ c.toNat := by
      rcases charValidNat c with h | ⟨h, _⟩
      · exact Or.inl h
      · exact Or.inr (by omega)
    rw [he, hex4, decodeStrF.eq_def]
    simp [hx, hcond]
  · have he : encodeChar c =
        ('\\' :: 'u' :: hex4 (0xd800 + (c.toNat - 0x10000) / 1024)) ++
          ('\\' :: 'u' :: hex4 (0xdc00 + (c.toNat - 0x10000) % 1024)) := by
      rw [encodeChar, if_neg h1, if_neg h2, if_neg h3, if_neg h4, if_neg h5, if_neg h6,
        if_neg h7, if_neg h8, if_neg h9]
    have hlt : c.toNat < 0x110000 := by
      rcases charValidNat c with h | ⟨_, h⟩
      · omega
      · exact h
    have hm : c.toNat - 0x10000 < 0x100000 := by omega
    have hhi := fromHex4_hex4 (0xd800 + (c.toNat - 0x10000) / 1024) (by omega)
    have h1024 : (c.toNat - 0x10000) % 1024 < 1024 := Nat.mod_lt _ (by decide)
    have hlo := fromHex4_hex4 (0xdc00 + (c.toNat - 0x10000) % 1024) (by omega)
    have hc1 : ¬ (0xd800 + (c.toNat - 0x10000) / 1024 < 0xd800 ∨
        0xe000 ≤ 0xd800 + (c.toNat - 0x10000) / 1024) := by omega
    have hc2 : 0xd800 + (c.toNat - 0x10000) / 1024 < 0xdc00 := by omega
    have hc3 : 0xdc00 ≤ 0xdc00 + (c.toNat - 0x10000) % 1024 ∧
        0xdc00 + (c.toNat - 0x10000) % 1024 < 0xe000 := by omega
    have harg : 0x10000 + (0xd800 + (c.toNat - 0x10000) / 1024 - 0xd800) * 1024 +
        (0xdc00 + (c.toNat - 0x10000) % 1024 - 0xdc00) = c.toNat := by omega
    rw [he]
    exact Eq.trans
      (decode_surrogate_pair f _ _ _ _ _ _ _ _ t _ _ hhi hlo hc1 hc2 hc3)
      (by rw [harg, Char.ofNat_toNat])

theorem decodeStrF_escBody (k : List Char) : ∀ (f : Nat) (rest : List Char), k.length < f →
    decodeStrF f (escBody k ++ '\x22' :: rest) = some (k, rest) := by
  induction k with
  | nil =>
    intro f rest h
    cases f with
    | zero => simp at h
    | succ f =>
      rw [escBody, List.nil_append, decodeStrF.eq_def]
      simp
  | cons c k ih =>
    intro f rest h
    cases f with
    | zero => simp at h
    | succ f =>
      rw [escBody, List.append_assoc, decodeStrF_encodeChar]
      rw [ih f rest (by simp at h; omega)]
      rfl

theorem encodeChar_length_pos (c : Char) : 1 ≤ (encodeChar c).length := by
  rw [encodeChar]
  split_ifs <;> simp [hex4]

theorem escBody_length_ge (k : List Char) : k.length ≤ (escBody k).length := by
  induction k with
  | nil => simp [escBody]
  | cons c k ih =>
    rw [escBody]
    have := encodeChar_length_pos c
    simp [List.length_append]
    omega

theorem decodeStr_escBody (k rest : List Char) :
    decodeStr (escBody k ++ '\x22' :: rest) = some (k, rest) := by
  rw [decodeStr]
  apply decodeStrF_escBody
  have := escBody_length_ge k
  simp [List.length_append]
  omega

/-! ## Serialization round-trip: numbers -/

theorem digitChar_facts : ∀ d, d < 10 →
    isDigitA (digitChar d) = true ∧ (digitChar d).toNat = 48 + d ∧
    isWs (digitChar d) = false ∧ digitChar d ≠ '\x7b' ∧ digitChar d ≠ '[' ∧
    digitChar d ≠ '\x22' ∧ digitChar d ≠ 't' ∧ digitChar d ≠ 'f' ∧ digitChar d ≠ 'n' ∧
    digitChar d ≠ '-' ∧ digitChar d ≠ ']' ∧ digitChar d ≠ '\x7d' ∧
    (digitChar d = '0' ↔ d = 0) := by decide

theorem digitsVal_snoc (l : List Char) (c : Char) :
    digitsVal (l ++ [c]) = 10 * digitsVal l + (c.toNat - 48) := by
  rw [digitsVal, digitsVal, List.foldl_append]
  rfl

theorem natDigitsF_irrel (n : Nat) : ∀ (f g : Nat), n < f → n < g →
    natDigitsF f n = natDigitsF g n := by
  induction n using Nat.strong_induction_on with
  | _ n ih =>
    intro f g hf hg
    cases f with
    | zero => omega
    | succ f =>
      cases g with
      | zero => omega
      | succ g =>
        rw [natDigitsF, natDigitsF]
        by_cases h : n < 10
        · simp [h]
        · simp only [h, if_false]
          rw [ih (n / 10) (by omega) f g (by omega) (by omega)]

theorem natDigits_small (n : Nat) (h : n < 10) : natDigits n = [digitChar n] := by
  rw [natDigits, natDigitsF, if_pos h]

theorem natDigits_step (n : Nat) (h : 10 ≤ n) :
    natDigits n = natDigits (n / 10) ++ [digitChar (n % 10)] := by
  rw [natDigits, natDigitsF, if_neg (by omega)]
  rw [natDigitsF_irrel (n / 10) n (n / 10 + 1) (by omega) (by omega)]
  rfl

theorem natDigits_props (n : Nat) :
    (∀ c ∈ natDigits n, ∃ d, d < 10 ∧ c = digitChar d) ∧
    digitsVal (natDigits n) = n ∧
    natDigits n ≠ [] ∧
    (10 ≤ n → ∀ t, natDigits n ≠ '0' :: t) := by
  induction n using Nat.strong_induction_on with
  | _ n ih =>
    by_cases h : n < 10
    · rw [natDigits_small n h]
      refine ⟨?_, ?_, by simp, by omega⟩
      · intro c hc
        rw [List.mem_singleton] at hc
        exact ⟨n, h, hc⟩
      · have hd := (digitChar_facts n h).2.1
        simp [digitsVal, List.foldl, hd]
    · obtain ⟨ihA, ihB, ihC, ihD⟩ := ih (n / 10) (by omega)
      rw [natDigits_step n (by omega)]
      refine ⟨?_, ?_, by simp, ?_⟩
      · intro c hc
        rcases List.mem_append.mp hc with hc | hc
        · exact ihA c hc
        · rw [List.mem_singleton] at hc
          exact ⟨n % 10, by omega, hc⟩
      · rw [digitsVal_snoc, ihB, (digitChar_facts (n % 10) (by omega)).2.1]
        omega
      · intro _ t ht
        obtain ⟨c0, t0, h0⟩ := List.exists_cons_of_ne_nil ihC
        rw [h0, List.cons_append, List.cons.injEq] at ht
        by_cases h10 : n / 10 < 10
        · rw [natDigits_small _ h10, List.cons.injEq] at h0
          have h00 : n / 10 = 0 :=
            ((digitChar_facts (n / 10) h10).2.2.2.2.2.2.2.2.2.2.2.2).mp (h0.1.trans ht.1)
          omega
        · exact ihD (by omega) t0 (h0.trans (by rw [ht.1]))

theorem takeDigits_append (ds : List Char) (rest : List Char)
    (hds : ∀ c ∈ ds, isDigitA c = true)
    (hr : ∀ c t, rest = c :: t → isDigitA c = false) :
    takeDigits (ds ++ rest) = (ds, rest) := by
  induction ds with
  | nil =>
    cases rest with
    | nil => rfl
    | cons c t =>
      rw [List.nil_append, takeDigits]
      simp [hr c t rfl]
  | cons c ds ih =>
    rw [List.cons_append, takeDigits]
    have hc := hds c (List.mem_cons_self c ds)
    simp [hc, ih (fun x hx => hds x (List.mem_cons_of_mem _ hx))]

theorem stopper_not_digit (rest : List Char) (hstop : stopper rest = true) :
    ∀ c t, rest = c :: t → isDigitA c = false := by
  intro c t h
  subst h
  rw [stopper] at hstop
  simp only [Bool.or_eq_true, decide_eq_true_eq] at hstop
  rcases hstop with (rfl | rfl) | rfl <;> decide

theorem stopper_not_dotE (rest : List Char) (hstop : stopper rest = true) :
    ∀ c t, rest = c :: t → ¬ (c = '.' ∨ c = 'e' ∨ c = 'E') := by
  intro c t h
  subst h
  rw [stopper] at hstop
  simp only [Bool.or_eq_true, decide_eq_true_eq] at hstop
  rcases hstop with (rfl | rfl) | rfl <;> decide

theorem natDigits_no_leading_zero (m : Nat) :
    ¬ ((natDigits m).length > 1 ∧ (natDigits m).head? = some '0') := by
  rintro ⟨hl, hh⟩
  obtain ⟨hA, hB, hC, hD⟩ := natDigits_props m
  by_cases h10 : m < 10
  · rw [natDigits_small m h10] at hl
    simp at hl
  · obtain ⟨c0, t0, h0⟩ := List.exists_cons_of_ne_nil hC
    rw [h0] at hh
    simp at hh
    exact hD (by omega) t0 (by rw [h0, hh])

theorem parseNumAt_dumps (n : Int) (rest : List Char) (hstop : stopper rest = true) :
    parseNumAt (json_dumps (.int n) ++ rest) = some (.int n, rest) := by
  obtain ⟨hA, hB, hC, hD⟩ := natDigits_props n.natAbs
  have htd : takeDigits (natDigits n.natAbs ++ rest) = (natDigits n.natAbs, rest) := by
    refine takeDigits_append _ _ ?_ (stopper_not_digit rest hstop)
    intro c hc
    obtain ⟨d, hd, rfl⟩ := hA c hc
    exact (digitChar_facts d hd).1
  have hlz := natDigits_no_leading_zero n.natAbs
  have hr : rest = [] ∨ ∃ c t, rest = c :: t ∧ ¬ (c = '.' ∨ c = 'e' ∨ c = 'E') := by
    cases rest with
    | nil => exact Or.inl rfl
    | cons c t => exact Or.inr ⟨c, t, rfl, stopper_not_dotE (c :: t) hstop c t rfl⟩
  by_cases hneg : n < 0
  · have hv : -(Int.ofNat n.natAbs) = n := by rw [Int.ofNat_eq_natCast]; omega
    rw [json_dumps, if_pos hneg, List.cons_append, parseNumAt]
    simp only [reduceIte, htd, hB, hv]
    simp only [hC, hlz, if_false]
    rcases hr with rfl | ⟨c, t, rfl, hct⟩
    · simp
    · simp [hct]
  · have hv : Int.ofNat n.natAbs = n := by rw [Int.ofNat_eq_natCast]; omega
    obtain ⟨c0, t0, h0⟩ := List.exists_cons_of_ne_nil hC
    obtain ⟨d0, hd0, hcd⟩ := hA c0 (by rw [h0]; exact List.mem_cons_self c0 t0)
    have hin : natDigits n.natAbs ++ rest = c0 :: (t0 ++ rest) := by
      rw [h0, List.cons_append]
    have hnm : ¬ c0 = '-' := by
      rw [hcd]
      exact (digitChar_facts d0 hd0).2.2.2.2.2.2.2.2.2.1
    rw [json_dumps, if_neg hneg, hin, parseNumAt]
    simp only [hnm, if_false, ← hin, htd, hB, hv]
    simp only [hC, hlz, if_false, reduceIte]
    rcases hr with rfl | ⟨c, t, rfl, hct⟩
    · simp
    · simp [hct]

/-! ## Serialization round-trip: structural facts -/

theorem json_dumps_head (v : Json) :
    ∃ c t, json_dumps v = c :: t ∧ isWs c = false ∧ c ≠ ']' ∧ c ≠ '\x7d' := by
  cases v with
  | null => exact ⟨'n', s2c "ull", by decide, by decide, by decide, by decide⟩
  | bool b =>
    cases b
    · exact ⟨'f', s2c "alse", by decide, by decide, by decide, by decide⟩
    · exact ⟨'t', s2c "rue", by decide, by decide, by decide, by decide⟩
  | int n =>
    obtain ⟨hA, _, hC, _⟩ := natDigits_props n.natAbs
    by_cases hneg : n < 0
    · exact ⟨'-', natDigits n.natAbs, by rw [json_dumps, if_pos hneg], by decide, by decide,
        by decide⟩
    · obtain ⟨c0, t0, h0⟩ := List.exists_cons_of_ne_nil hC
      obtain ⟨d0, hd0, rfl⟩ := hA c0 (by rw [h0]; exact List.mem_cons_self _ _)
      have hf := digitChar_facts d0 hd0
      exact ⟨digitChar d0, t0, by rw [json_dumps, if_neg hneg, h0], hf.2.2.1,
        hf.2.2.2.2.2.2.2.2.2.2.1, hf.2.2.2.2.2.2.2.2.2.2.2.1⟩
  | str s =>
    exact ⟨'\x22', escBody s ++ ['\x22'], rfl, by decide, by decide, by decide⟩
  | arr xs =>
    cases xs with
    | nil => exact ⟨'[', [']'], rfl, by decide, by decide, by decide⟩
    | cons x xs =>
      exact ⟨'[', (json_dumps x ++ dumpsArrTail xs) ++ [']'], rfl, by decide, by decide,
        by decide⟩
  | obj kvs =>
    cases kvs with
    | nil => exact ⟨'\x7b', ['\x7d'], rfl, by decide, by decide, by decide⟩
    | cons kv kvs =>
      obtain ⟨k, v⟩ := kv
      exact ⟨'\x7b', (dumpStr k ++ ':' :: ' ' :: (json_dumps v ++ dumpsObjTail kvs)) ++ ['\x7d'],
        rfl, by decide, by decide, by decide⟩

theorem lstrip_dumps (v : Json) (X : List Char) :
    lstrip (json_dumps v ++ X) = json_dumps v ++ X := by
  obtain ⟨c, t, hv, hws, _, _⟩ := json_dumps_head v
  rw [hv, List.cons_append, lstrip_not_ws _ _ hws]

theorem sizeJ_pos (v : Json) : 1 ≤ sizeJ v := by
  cases v <;> simp [sizeJ]

theorem sizeJ_le_dumps_all (N : Nat) :
    (∀ v, sizeJ v ≤ N → sizeJ v ≤ (json_dumps v).length) ∧
    (∀ xs, sizeJList xs ≤ N → sizeJList xs ≤ (dumpsArrTail xs).length) ∧
    (∀ kvs, sizeJKVs kvs ≤ N → sizeJKVs kvs ≤ (dumpsObjTail kvs).length) := by
  induction N with
  | zero =>
    refine ⟨fun v h => absurd h (by have := sizeJ_pos v; omega), fun xs h => ?_, fun kvs h => ?_⟩
    · cases xs with
      | nil => simp [sizeJList]
      | cons x xs => rw [sizeJList] at h; have := sizeJ_pos x; omega
    · cases kvs with
      | nil => simp [sizeJKVs]
      | cons kv kvs => rw [sizeJKVs] at h; have := sizeJ_pos kv.2; omega
  | succ N ih =>
    refine ⟨fun v h => ?_, fun xs h => ?_, fun kvs h => ?_⟩
    · cases v with
      | null => simp [sizeJ, json_dumps, s2c]
      | bool b => cases b <;> simp [sizeJ, json_dumps, s2c]
      | int n =>
        obtain ⟨c, t, hv, _, _, _⟩ := json_dumps_head (.int n)
        rw [hv, sizeJ]
        simp
      | str s =>
        rw [sizeJ, json_dumps, dumpStr]
        simp
      | arr xs =>
        cases xs with
        | nil => simp [sizeJ, sizeJList, json_dumps]
        | cons x xs =>
          rw [sizeJ, sizeJList] at h ⊢
          rw [json_dumps]
          have h1 := ih.1 x (by have := sizeJ_pos x; omega)
          have h2 := ih.2.1 xs (by have := sizeJ_pos x; omega)
          simp only [List.length_append, List.length_cons, List.length_nil]
          omega
      | obj kvs =>
        cases kvs with
        | nil => simp [sizeJ, sizeJKVs, json_dumps]
        | cons kv kvs =>
          obtain ⟨k, v⟩ := kv
          rw [sizeJ] at h ⊢
          simp only [sizeJKVs] at h ⊢
          rw [json_dumps]
          have h1 := ih.1 v (by have := sizeJ_pos v; omega)
          have h2 := ih.2.2 kvs (by have := sizeJ_pos v; omega)
          simp only [List.length_append, List.length_cons, List.length_nil]
          simp at h ⊢
          omega
    · cases xs with
      | nil => simp [sizeJList, dumpsArrTail]
      | cons x xs =>
        rw [sizeJList] at h ⊢
        rw [dumpsArrTail]
        have h1 := ih.1 x (by have := sizeJ_pos x; omega)
        have h2 := ih.2.1 xs (by have := sizeJ_pos x; omega)
        simp only [List.length_append, List.length_cons]
        omega
    · cases kvs with
      | nil => simp [sizeJKVs, dumpsObjTail]
      | cons kv kvs =>
        obtain ⟨k, v⟩ := kv
        simp only [sizeJKVs] at h ⊢
        rw [dumpsObjTail]
        have h1 := ih.1 v (by have := sizeJ_pos v; omega)
        have h2 := ih.2.2 kvs (by have := sizeJ_pos v; omega)
        simp only [List.length_append, List.length_cons]
        simp at h ⊢
        omega

theorem sizeJ_le_dumps (v : Json) : sizeJ v ≤ (json_dumps v).length :=
  (sizeJ_le_dumps_all (sizeJ v)).1 v (Nat.le_refl _)

/-! ## Dict rebuilding: duplicates, key sets, well-formedness -/

theorem objInsert_of_lookup_none (acc : List (List Char × Json)) (k : List Char) (v : Json)
    (h : lookupKey acc k = none) : objInsert acc k v = acc ++ [(k, v)] := by
  induction acc with
  | nil => rfl
  | cons kv acc ih =>
    obtain ⟨k1, v1⟩ := kv
    rw [lookupKey] at h
    rw [objInsert]
    by_cases hk : k1 = k
    · rw [if_pos hk] at h
      simp at h
    · rw [if_neg hk] at h
      rw [if_neg hk, ih h, List.cons_append]

theorem lookupKey_append_none (a b : List (List Char × Json)) (k : List Char)
    (h : lookupKey a k = none) : lookupKey (a ++ b) k = lookupKey b k := by
  induction a with
  | nil => rfl
  | cons kv a ih =>
    obtain ⟨k1, v1⟩ := kv
    rw [lookupKey] at h
    rw [List.cons_append, lookupKey]
    by_cases hk : k1 = k
    · rw [if_pos hk] at h
      simp at h
    · rw [if_neg hk] at h
      rw [if_neg hk]
      exact ih h

theorem lookupKey_singleton_ne (k k1 : List Char) (v : Json) (h : ¬ k1 = k) :
    lookupKey [(k1, v)] k = none := by
  rw [lookupKey, if_neg h]
  rfl

theorem dedup_go (kvs : List (List Char × Json)) :
    ∀ acc, (∀ kv ∈ kvs, lookupKey acc kv.1 = none) → (kvs.map Prod.fst).Nodup →
    kvs.foldl (fun a kv => objInsert a kv.1 kv.2) acc = acc ++ kvs := by
  induction kvs with
  | nil =>
    intro acc _ _
    simp
  | cons kv kvs ih =>
    obtain ⟨k, v⟩ := kv
    intro acc hnone hnd
    rw [List.map_cons, List.nodup_cons] at hnd
    rw [List.foldl_cons]
    rw [objInsert_of_lookup_none acc k v (hnone (k, v) (List.mem_cons_self _ _))]
    have hrec := ih (acc ++ [(k, v)]) (by
      intro kv2 h2
      rw [lookupKey_append_none _ _ _ (hnone kv2 (List.mem_cons_of_mem _ h2))]
      exact lookupKey_singleton_ne _ _ _
        (fun hk => hnd.1 (by rw [hk]; exact List.mem_map.mpr ⟨kv2, h2, rfl⟩))) hnd.2
    rw [hrec, List.append_assoc]
    rfl

theorem dedupKVs_of_nodup (kvs : List (List Char × Json)) (h : (kvs.map Prod.fst).Nodup) :
    dedupKVs kvs = kvs := by
  rw [dedupKVs, dedup_go kvs [] (fun kv _ => rfl) h, List.nil_append]

theorem mem_objInsert_snd (acc : List (List Char × Json)) (k : List Char) (v : Json) :
    ∀ kv ∈ objInsert acc k v, kv.2 = v ∨ kv ∈ acc := by
  induction acc with
  | nil =>
    intro kv h
    rw [objInsert] at h
    rw [List.mem_singleton] at h
    rw [h]
    exact Or.inl rfl
  | cons kv1 acc ih =>
    obtain ⟨k1, v1⟩ := kv1
    intro kv h
    rw [objInsert] at h
    by_cases hk : k1 = k
    · rw [if_pos hk] at h
      rcases List.mem_cons.mp h with rfl | h
      · exact Or.inl rfl
      · exact Or.inr (List.mem_cons_of_mem _ h)
    · rw [if_neg hk] at h
      rcases List.mem_cons.mp h with rfl | h
      · exact Or.inr (List.mem_cons_self _ _)
      · rcases ih kv h with h | h
        · exact Or.inl h
        · exact Or.inr (List.mem_cons_of_mem _ h)

theorem mem_keys_objInsert (acc : List (List Char × Json)) (k k2 : List Char) (v : Json) :
    k2 ∈ (objInsert acc k v).map Prod.fst → k2 ∈ acc.map Prod.fst ∨ k2 = k := by
  induction acc with
  | nil =>
    intro h
    rw [objInsert, List.map_cons, List.map_nil, List.mem_singleton] at h
    exact Or.inr h
  | cons kv1 acc ih =>
    obtain ⟨k1, v1⟩ := kv1
    intro h
    rw [objInsert] at h
    by_cases hk : k1 = k
    · rw [if_pos hk, List.map_cons, List.mem_cons] at h
      rw [List.map_cons, List.mem_cons]
      rcases h with h | h
      · exact Or.inl (Or.inl h)
      · exact Or.inl (Or.inr h)
    · rw [if_neg hk, List.map_cons, List.mem_cons] at h
      rw [List.map_cons, List.mem_cons]
      rcases h with h | h
      · exact Or.inl (Or.inl h)
      · rcases ih h with h | h
        · exact Or.inl (Or.inr h)
        · exact Or.inr h

theorem objInsert_keys_nodup (acc : List (List Char × Json)) (k : List Char) (v : Json)
    (h : (acc.map Prod.fst).Nodup) : ((objInsert acc k v).map Prod.fst).Nodup := by
  induction acc with
  | nil =>
    rw [objInsert]
    simp
  | cons kv1 acc ih =>
    obtain ⟨k1, v1⟩ := kv1
    rw [List.map_cons, List.nodup_cons] at h
    rw [objInsert]
    by_cases hk : k1 = k
    · rw [if_pos hk, List.map_cons, List.nodup_cons]
      exact h
    · rw [if_neg hk, List.map_cons, List.nodup_cons]
      refine ⟨fun hmem => ?_, ih h.2⟩
      rcases mem_keys_objInsert acc k k1 v hmem with hmem | hmem
      · exact h.1 hmem
      · exact hk hmem

theorem dedup_preserves (kvs : List (List Char × Json)) :
    ∀ acc, (∀ kv ∈ acc, JsonWF kv.2) → (acc.map Prod.fst).Nodup →
    (∀ kv ∈ kvs, JsonWF kv.2) →
    (∀ kv ∈ kvs.foldl (fun a kv => objInsert a kv.1 kv.2) acc, JsonWF kv.2) ∧
    ((kvs.foldl (fun a kv => objInsert a kv.1 kv.2) acc).map Prod.fst).Nodup := by
  induction kvs with
  | nil =>
    intro acc h1 h2 _
    exact ⟨h1, h2⟩
  | cons kv kvs ih =>
    intro acc h1 h2 h3
    rw [List.foldl_cons]
    refine ih (objInsert acc kv.1 kv.2) ?_ (objInsert_keys_nodup _ _ _ h2)
      (fun x hx => h3 x (List.mem_cons_of_mem _ hx))
    intro x hx
    rcases mem_objInsert_snd acc kv.1 kv.2 x hx with h | h
    · rw [h]
      exact h3 kv (List.mem_cons_self _ _)
    · exact h1 x h

theorem dedupKVs_wf (kvs : List (List Char × Json)) (h : ∀ kv ∈ kvs, JsonWF kv.2) :
    JsonWF (.obj (dedupKVs kvs)) := by
  obtain ⟨h1, h2⟩ :=
    dedup_preserves kvs [] (fun x hx => absurd hx (List.not_mem_nil x)) (by simp) h
  exact JsonWF.obj _ h1 h2

theorem stopper_arrTail (xs : List Json) (rest : List Char) :
    stopper (dumpsArrTail xs ++ (']' :: rest)) = true := by
  cases xs with
  | nil => rfl
  | cons x xs =>
    rw [dumpsArrTail]
    rfl

theorem stopper_objTail (kvs : List (List Char × Json)) (rest : List Char) :
    stopper (dumpsObjTail kvs ++ ('\x7d' :: rest)) = true := by
  cases kvs with
  | nil => rfl
  | cons kv kvs =>
    obtain ⟨k, v⟩ := kv
    rw [dumpsObjTail]
    rfl

/-- Parsing is a left inverse of serialization: on the output of
`json_dumps` for a well-formed value, each of the three mutually recursive
parser functions reads back exactly the value it was given, for any fuel at
least the size of the value and any continuation that starts with a
legitimate terminator. -/
theorem parse_dumps_all (fuel : Nat) :
    (∀ v s rest, JsonWF v → sizeJ v ≤ fuel → stopper rest = true →
      lstrip s = json_dumps v ++ rest → parseValue fuel s = some (v, rest)) ∧
    (∀ x xs s rest, (∀ y ∈ x :: xs, JsonWF y) → sizeJList (x :: xs) ≤ fuel →
      lstrip s = json_dumps x ++ (dumpsArrTail xs ++ (']' :: rest)) →
      parseElems fuel s = some (x :: xs, rest)) ∧
    (∀ k v kvs s rest, (∀ kv ∈ (k, v) :: kvs, JsonWF kv.2) →
      sizeJKVs ((k, v) :: kvs) ≤ fuel →
      lstrip s = dumpStr k ++
        (':' :: ' ' :: (json_dumps v ++ (dumpsObjTail kvs ++ ('\x7d' :: rest)))) →
      parseMembers fuel s = some ((k, v) :: kvs, rest)) := by
  induction fuel with
  | zero =>
    refine ⟨fun v s rest hwf hsz _ _ => absurd hsz (by have := sizeJ_pos v; omega),
      fun x xs s rest _ hsz _ => absurd hsz (by rw [sizeJList]; have := sizeJ_pos x; omega),
      fun k v kvs s rest _ hsz _ => absurd hsz (by
        simp only [sizeJKVs]
        have := sizeJ_pos v
        omega)⟩
  | succ N ih =>
    refine ⟨?_, ?_, ?_⟩
    · intro v s rest hwf hsz hstop hs
      rw [parseValue]
      cases v with
      | null =>
        have hd : json_dumps Json.null ++ rest = 'n' :: 'u' :: 'l' :: 'l' :: rest := rfl
        rw [hs, hd]
        simp
      | bool b =>
        cases b
        · have hd : json_dumps (Json.bool false) ++ rest =
              'f' :: 'a' :: 'l' :: 's' :: 'e' :: rest := rfl
          rw [hs, hd]
          simp
        · have hd : json_dumps (Json.bool true) ++ rest =
              't' :: 'r' :: 'u' :: 'e' :: rest := rfl
          rw [hs, hd]
          simp
      | int n =>
        by_cases hneg : n < 0
        · have hd : json_dumps (Json.int n) ++ rest =
              '-' :: (natDigits n.natAbs ++ rest) := by
            rw [json_dumps, if_pos hneg, List.cons_append]
          rw [hs, hd]
          simp
          rw [← List.cons_append,
            (by rw [json_dumps, if_pos hneg] : '-' :: natDigits n.natAbs = json_dumps (.int n))]
          exact parseNumAt_dumps n rest hstop
        · obtain ⟨hA, _, hC, _⟩ := natDigits_props n.natAbs
          obtain ⟨c0, t0, h0⟩ := List.exists_cons_of_ne_nil hC
          obtain ⟨d0, hd0, rfl⟩ := hA c0 (by rw [h0]; exact List.mem_cons_self _ _)
          obtain ⟨hf1, hf2, hf3, hf4, hf5, hf6, hf7, hf8, hf9, hf10, hf11, hf12, hf13⟩ :=
            digitChar_facts d0 hd0
          have hd : json_dumps (Json.int n) ++ rest = digitChar d0 :: (t0 ++ rest) := by
            rw [json_dumps, if_neg hneg, h0, List.cons_append]
          rw [hs, hd]
          simp [hf4, hf5, hf6, hf7, hf8, hf9]
          rw [← hd]
          exact parseNumAt_dumps n rest hstop
      | str b =>
        have hd : json_dumps (Json.str b) ++ rest =
            '\x22' :: (escBody b ++ ('\x22' :: rest)) := by
          rw [json_dumps, dumpStr]
          simp [List.append_assoc]
        rw [hs, hd]
        simp [decodeStr_escBody]
      | arr xs =>
        cases xs with
        | nil =>
          have hd : json_dumps (Json.arr []) ++ rest = '[' :: (']' :: rest) := rfl
          have hls : lstrip (']' :: rest) = ']' :: rest := lstrip_not_ws _ _ (by decide)
          rw [hs, hd]
          simp [hls]
        | cons x xs =>
          cases hwf with
          | arr _ hwfl =>
            have hd : json_dumps (Json.arr (x :: xs)) ++ rest =
                '[' :: (json_dumps x ++ (dumpsArrTail xs ++ (']' :: rest))) := by
              rw [json_dumps]
              simp [List.append_assoc]
            obtain ⟨c0, t0, h0, hws, hne1, hne2⟩ := json_dumps_head x
            have hls : lstrip (json_dumps x ++ (dumpsArrTail xs ++ (']' :: rest))) =
                json_dumps x ++ (dumpsArrTail xs ++ (']' :: rest)) := lstrip_dumps x _
            have hE := ih.2.1 x xs (json_dumps x ++ (dumpsArrTail xs ++ (']' :: rest))) rest
              hwfl (by rw [sizeJ] at hsz; omega) hls
            rw [hs, hd]
            rw [h0, List.cons_append] at hls hE ⊢
            simp [hls, hne1, hE]
      | obj kvs =>
        cases kvs with
        | nil =>
          have hd : json_dumps (Json.obj []) ++ rest = '\x7b' :: ('\x7d' :: rest) := rfl
          have hls : lstrip ('\x7d' :: rest) = '\x7d' :: rest := lstrip_not_ws _ _ (by decide)
          rw [hs, hd]
          simp [hls]
        | cons kv kvs =>
          obtain ⟨k, v⟩ := kv
          cases hwf with
          | obj _ hwfv hnd =>
            have hd : json_dumps (Json.obj ((k, v) :: kvs)) ++ rest =
                '\x7b' :: (dumpStr k ++
                  (':' :: ' ' :: (json_dumps v ++ (dumpsObjTail kvs ++ ('\x7d' :: rest))))) := by
              rw [json_dumps]
              simp [List.append_assoc]
            have hr : dumpStr k ++
                (':' :: ' ' :: (json_dumps v ++ (dumpsObjTail kvs ++ ('\x7d' :: rest)))) =
                '\x22' :: (escBody k ++
                  ('\x22' :: (':' :: ' ' ::
                    (json_dumps v ++ (dumpsObjTail kvs ++ ('\x7d' :: rest)))))) := by
              rw [dumpStr]
              simp [List.append_assoc]
            have hM := ih.2.2 k v kvs (dumpStr k ++
                (':' :: ' ' :: (json_dumps v ++ (dumpsObjTail kvs ++ ('\x7d' :: rest))))) rest
              hwfv (by rw [sizeJ] at hsz; omega)
              (by rw [hr]; exact lstrip_not_ws _ _ (by decide))
            have hls : lstrip ('\x22' :: (escBody k ++
                ('\x22' :: (':' :: ' ' ::
                  (json_dumps v ++ (dumpsObjTail kvs ++ ('\x7d' :: rest))))))) =
                '\x22' :: (escBody k ++
                ('\x22' :: (':' :: ' ' ::
                  (json_dumps v ++ (dumpsObjTail kvs ++ ('\x7d' :: rest)))))) :=
              lstrip_not_ws _ _ (by decide)
            rw [hs, hd]
            rw [hr] at hM ⊢
            simp [hls, hM, dedupKVs_of_nodup _ hnd]
    · intro x xs s rest hwfl hsz hs
      rw [parseElems]
      have hv := ih.1 x s (dumpsArrTail xs ++ (']' :: rest))
        (hwfl x (List.mem_cons_self _ _)) (by rw [sizeJList] at hsz; omega)
        (stopper_arrTail xs rest) hs
      rw [hv]
      cases xs with
      | nil =>
        have hY : dumpsArrTail ([] : List Json) ++ (']' :: rest) = ']' :: rest := rfl
        have hls : lstrip (']' :: rest) = ']' :: rest := lstrip_not_ws _ _ (by decide)
        rw [hY]
        simp [hls]
      | cons y ys =>
        have hY : dumpsArrTail (y :: ys) ++ (']' :: rest) =
            ',' :: (' ' :: (json_dumps y ++ (dumpsArrTail ys ++ (']' :: rest)))) := by
          rw [dumpsArrTail]
          simp [List.append_assoc]
        have hE := ih.2.1 y ys (' ' :: (json_dumps y ++ (dumpsArrTail ys ++ (']' :: rest)))) rest
          (fun z hz => hwfl z (List.mem_cons_of_mem _ hz)) (by rw [sizeJList] at hsz; omega)
          (by rw [lstrip_ws_cons _ _ (by decide)]; exact lstrip_dumps y _)
        have hls : lstrip (',' :: (' ' :: (json_dumps y ++ (dumpsArrTail ys ++ (']' :: rest))))) =
            ',' :: (' ' :: (json_dumps y ++ (dumpsArrTail ys ++ (']' :: rest)))) :=
          lstrip_not_ws _ _ (by decide)
        rw [hY]
        simp [hls, hE]
    · intro k v kvs s rest hwf hsz hs
      rw [parseMembers]
      have hr : dumpStr k ++
          (':' :: ' ' :: (json_dumps v ++ (dumpsObjTail kvs ++ ('\x7d' :: rest)))) =
          '\x22' :: (escBody k ++
            ('\x22' :: (':' :: ' ' ::
              (json_dumps v ++ (dumpsObjTail kvs ++ ('\x7d' :: rest)))))) := by
        rw [dumpStr]
        simp [List.append_assoc]
      rw [hs, hr]
      have hv := ih.1 v (' ' :: (json_dumps v ++ (dumpsObjTail kvs ++ ('\x7d' :: rest))))
        (dumpsObjTail kvs ++ ('\x7d' :: rest))
        (hwf (k, v) (List.mem_cons_self _ _))
        (by simp only [sizeJKVs] at hsz; omega)
        (stopper_objTail kvs rest)
        (by rw [lstrip_ws_cons _ _ (by decide)]; exact lstrip_dumps v _)
      have hd2 := decodeStr_escBody k
        (':' :: ' ' :: (json_dumps v ++ (dumpsObjTail kvs ++ ('\x7d' :: rest))))
      have hls2 : lstrip (':' :: ' ' :: (json_dumps v ++ (dumpsObjTail kvs ++ ('\x7d' :: rest)))) =
          ':' :: ' ' :: (json_dumps v ++ (dumpsObjTail kvs ++ ('\x7d' :: rest))) :=
        lstrip_not_ws _ _ (by decide)
      cases kvs with
      | nil =>
        have hY : dumpsObjTail ([] : List (List Char × Json)) ++ ('\x7d' :: rest) =
            '\x7d' :: rest := rfl
        have hls3 : lstrip ('\x7d' :: rest) = '\x7d' :: rest := lstrip_not_ws _ _ (by decide)
        rw [hY] at hv hd2 hls2 ⊢
        simp [hd2, hls2, hv, hls3]
      | cons kv2 kvs2 =>
        obtain ⟨k2, v2⟩ := kv2
        have hY : dumpsObjTail ((k2, v2) :: kvs2) ++ ('\x7d' :: rest) =
            ',' :: (' ' :: (dumpStr k2 ++
              (':' :: ' ' :: (json_dumps v2 ++ (dumpsObjTail kvs2 ++ ('\x7d' :: rest)))))) := by
          rw [dumpsObjTail]
          simp [List.append_assoc]
        have hr2 : dumpStr k2 ++
            (':' :: ' ' :: (json_dumps v2 ++ (dumpsObjTail kvs2 ++ ('\x7d' :: rest)))) =
            '\x22' :: (escBody k2 ++
              ('\x22' :: (':' :: ' ' ::
                (json_dumps v2 ++ (dumpsObjTail kvs2 ++ ('\x7d' :: rest)))))) := by
          rw [dumpStr]
          simp [List.append_assoc]
        have hM := ih.2.2 k2 v2 kvs2 (' ' :: (dumpStr k2 ++
            (':' :: ' ' :: (json_dumps v2 ++ (dumpsObjTail kvs2 ++ ('\x7d' :: rest)))))) rest
          (fun x hx => hwf x (List.mem_cons_of_mem _ hx))
          (by simp only [sizeJKVs] at hsz ⊢; omega)
          (by
            rw [lstrip_ws_cons _ _ (by decide), hr2]
            exact lstrip_not_ws _ _ (by decide))
        have hls3 : lstrip (',' :: (' ' :: (dumpStr k2 ++
            (':' :: ' ' :: (json_dumps v2 ++ (dumpsObjTail kvs2 ++ ('\x7d' :: rest))))))) =
            ',' :: (' ' :: (dumpStr k2 ++
            (':' :: ' ' :: (json_dumps v2 ++ (dumpsObjTail kvs2 ++ ('\x7d' :: rest)))))) :=
          lstrip_not_ws _ _ (by decide)
        rw [hY] at hv hd2 hls2 ⊢
        simp [hd2, hls2, hv, hls3, hM]

/-! ## The round trip, and the normalizer success path (C5) -/

theorem json_loads_dumps (v : Json) (h : JsonWF v) : json_loads (json_dumps v) = some v := by
  have hp := (parse_dumps_all (2 * (json_dumps v).length + 2)).1 v (json_dumps v) [] h
    (by have := sizeJ_le_dumps v; omega) rfl
    (by
      obtain ⟨c, t, hv2, hws, _, _⟩ := json_dumps_head v
      rw [List.append_nil, hv2]
      exact lstrip_not_ws _ _ hws)
  rw [json_loads, hp]
  simp [lstrip]

theorem parseNumAt_shape (s : List Char) (v : Json) (r : List Char)
    (h : parseNumAt s = some (v, r)) : ∃ n : Int, v = .int n := by
  simp only [parseNumAt] at h
  split at h
  · simp at h
  · split at h
    · simp at h
    · split at h
      · split at h
        · simp at h
        · simp at h
          exact ⟨_, h.1.symm⟩
      · simp at h
        exact ⟨_, h.1.symm⟩

theorem parse_wf_all (fuel : Nat) :
    (∀ s v r, parseValue fuel s = some (v, r) → JsonWF v) ∧
    (∀ s l r, parseElems fuel s = some (l, r) → ∀ x ∈ l, JsonWF x) ∧
    (∀ s l r, parseMembers fuel s = some (l, r) → ∀ kv ∈ l, JsonWF kv.2) := by
  induction fuel with
  | zero =>
    refine ⟨fun s v r h => ?_, fun s l r h => ?_, fun s l r h => ?_⟩
    · rw [parseValue] at h
      cases h
    · rw [parseElems] at h
      cases h
    · rw [parseMembers] at h
      cases h
  | succ N ih =>
    refine ⟨fun s v r h => ?_, fun s l r h => ?_, fun s l r h => ?_⟩
    · rw [parseValue] at h
      split at h
      · cases h
      · split at h
        · split at h
          · cases h
          · split at h
            · simp at h
              rw [← h.1]
              exact JsonWF.obj [] (by simp) (by simp)
            · obtain ⟨p, hp, hpe⟩ := Option.map_eq_some'.mp h
              obtain ⟨l0, rr⟩ := p
              simp at hpe
              rw [← hpe.1]
              exact dedupKVs_wf _ (ih.2.2 _ _ _ hp)
        · split at h
          · split at h
            · cases h
            · split at h
              · simp at h
                rw [← h.1]
                exact JsonWF.arr [] (by simp)
              · obtain ⟨p, hp, hpe⟩ := Option.map_eq_some'.mp h
                obtain ⟨l0, rr⟩ := p
                simp at hpe
                rw [← hpe.1]
                exact JsonWF.arr _ (ih.2.1 _ _ _ hp)
          · split at h
            · obtain ⟨p, hp, hpe⟩ := Option.map_eq_some'.mp h
              obtain ⟨l0, rr⟩ := p
              simp at hpe
              rw [← hpe.1]
              exact JsonWF.str _
            · split at h
              · split at h
                · split at h
                  · simp at h
                    rw [← h.1]
                    exact JsonWF.bool _
                  · cases h
                · cases h
              · split at h
                · split at h
                  · split at h
                    · simp at h
                      rw [← h.1]
                      exact JsonWF.bool _
                    · cases h
                  · cases h
                · split at h
                  · split at h
                    · split at h
                      · simp at h
                        rw [← h.1]
                        exact JsonWF.null
                      · cases h
                    · cases h
                  · obtain ⟨n, rfl⟩ := parseNumAt_shape _ _ _ h
                    exact JsonWF.int n
    · rw [parseElems] at h
      split at h
      · cases h
      · rename_i v0 r0 hveq
        split at h
        · cases h
        · split at h
          · obtain ⟨p, hp, hpe⟩ := Option.map_eq_some'.mp h
            obtain ⟨l0, rr⟩ := p
            simp at hpe
            rw [← hpe.1]
            intro x hx
            rcases List.mem_cons.mp hx with rfl | hx
            · exact ih.1 _ _ _ hveq
            · exact ih.2.1 _ _ _ hp x hx
          · split at h
            · simp at h
              rw [← h.1]
              intro x hx
              rw [List.mem_singleton] at hx
              rw [hx]
              exact ih.1 _ _ _ hveq
            · cases h
    · rw [parseMembers] at h
      split at h
      · cases h
      · split at h
        · split at h
          · cases h
          · rename_i k0 r2 hdq
            split at h
            · cases h
            · split at h
              · split at h
                · cases h
                · rename_i v0 r4 hveq
                  split at h
                  · cases h
                  · split at h
                    · obtain ⟨p, hp, hpe⟩ := Option.map_eq_some'.mp h
                      obtain ⟨l0, rr⟩ := p
                      simp at hpe
                      rw [← hpe.1]
                      intro kv hkv
                      rcases List.mem_cons.mp hkv with rfl | hkv
                      · exact ih.1 _ _ _ hveq
                      · exact ih.2.2 _ _ _ hp kv hkv
                    · split at h
                      · simp at h
                        rw [← h.1]
                        intro kv hkv
                        rw [List.mem_singleton] at hkv
                        rw [hkv]
                        exact ih.1 _ _ _ hveq
                      · cases h
              · cases h
        · cases h

theorem json_loads_wf (s : List Char) (v : Json) (h : json_loads s = some v) : JsonWF v := by
  rw [json_loads] at h
  split at h
  · rename_i v0 rest hp
    split at h
    · simp at h
      rw [← h]
      exact (parse_wf_all _).1 _ _ _ hp
    · cases h
  · cases h

theorem objInsert_wf (kvs : List (List Char × Json)) (k : List Char) (v : Json)
    (h : JsonWF (.obj kvs)) (hv : JsonWF v) : JsonWF (.obj (objInsert kvs k v)) := by
  cases h with
  | obj _ hvals hnd =>
    refine JsonWF.obj _ ?_ (objInsert_keys_nodup _ _ _ hnd)
    intro kv hkv
    rcases mem_objInsert_snd kvs k v kv hkv with h | h
    · rw [h]
      exact hv
    · exact hvals kv h

/-- C5: the normalizer success path.  For every input classified as
structured whose fence-stripped text parses as a JSON object, the
normalizer makes exactly one parse attempt, never calls regenerate, and
returns the canonical re-serialization of the object with the freshly
generated message_id field injected (overwriting any message_id already
present, since objInsert replaces in place); the returned text parses back
to exactly that object, whose message_id field is the fresh identifier and
whose every other field equals the corresponding field of the parsed
input. -/
theorem normalize_success (mid : List Char) (regen : Nat → Except (List Char) (List Char))
    (raw : List Char) (kvs : List (List Char × Json))
    (h0 : looks_like_json raw = true)
    (hp : json_loads (strip_json_fences raw) = some (.obj kvs)) :
    normalize_response mid regen raw =
      ⟨.ok (json_dumps (.obj (objInsert kvs (s2c "message_id") (.str (s2c "msm_" ++ mid))))),
        1, 0⟩ ∧
    json_loads (json_dumps (.obj (objInsert kvs (s2c "message_id")
        (.str (s2c "msm_" ++ mid))))) =
      some (.obj (objInsert kvs (s2c "message_id") (.str (s2c "msm_" ++ mid)))) ∧
    lookupKey (objInsert kvs (s2c "message_id") (.str (s2c "msm_" ++ mid))) (s2c "message_id") =
      some (.str (s2c "msm_" ++ mid)) ∧
    ∀ k2, k2 ≠ s2c "message_id" →
      lookupKey (objInsert kvs (s2c "message_id") (.str (s2c "msm_" ++ mid))) k2 =
        lookupKey kvs k2 := by
  have hwf : JsonWF (.obj (objInsert kvs (s2c "message_id") (.str (s2c "msm_" ++ mid)))) :=
    objInsert_wf kvs _ _ (json_loads_wf _ _ hp) (JsonWF.str _)
  refine ⟨?_, json_loads_dumps _ hwf, lookupKey_objInsert_self kvs _ _,
    fun k2 hk2 => lookupKey_objInsert_ne kvs (s2c "message_id") k2 _ hk2⟩
  rw [normalize_response, if_pos h0]
  exact normLoop_parse_ok mid regen 2 0 0 raw (.obj kvs) hp

/-- Witness for C5 at the input the spec itself uses: a fenced vote_card
object, with a concrete fresh id and a regenerate stub. -/
theorem normalize_success_witness :
    normalize_response (s2c "u1") (fun _ => .ok [])
        (s2c "\x60\x60\x60json\n\x7b\"type\": \"vote_card\", \"vote_options\": []\x7d\n\x60\x60\x60") =
      ⟨.ok (json_dumps (.obj (objInsert
          [(s2c "type", .str (s2c "vote_card")), (s2c "vote_options", .arr [])]
          (s2c "message_id") (.str (s2c "msm_" ++ s2c "u1"))))), 1, 0⟩ ∧
    lookupKey (objInsert
        [(s2c "type", .str (s2c "vote_card")), (s2c "vote_options", .arr [])]
        (s2c "message_id") (.str (s2c "msm_" ++ s2c "u1"))) (s2c "message_id") =
      some (.str (s2c "msm_" ++ s2c "u1")) := by
  have h := normalize_success (s2c "u1") (fun _ => .ok [])
    (s2c "\x60\x60\x60json\n\x7b\"type\": \"vote_card\", \"vote_options\": []\x7d\n\x60\x60\x60")
    [(s2c "type", .str (s2c "vote_card")), (s2c "vote_options", .arr [])]
    (by decide) (by decide)
  exact ⟨h.1, h.2.2.1⟩


end Burpla
